import Mathlib

/-!
The budget planner of script.js: store, derived values and view handlers

A shallow embedding of `src/script.js`.

* JavaScript numbers are IEEE-754 binary64 values.  `JSNum` represents them
  exactly: a finite value is an integer count `k` of units of `2^-1074`
  (the smallest positive double), so every finite double is `fin k` for one
  integer `k`; the two zeros are merged into `fin 0`.  `add`, `sub`, `mul`
  and `div` round the exact result to the nearest double, ties to even.
* `localStorage` holds text.  `Text.LocalStorage` is that text, with
  `Text.readJSON`, `Text.writeJSON`, `Text.getTransactions` and
  `Text.saveTransactions` on it; `JSON.stringify` and `JSON.parse` are the
  texts of lists of transactions, numbers written as `Number::toString`
  writes them and strings as QuoteJSONString does.
* The handlers are stated on `Store`, the record of the four slots that
  keeps for each slot the value its text denotes (`none` when the slot is
  absent); `jsonTx`, `jsonGoal` record what a pass through
  `JSON.stringify` and `JSON.parse` does to a value, and
  `text_agrees_with_store` ties the two for the transaction log.
* Every handler takes what it reads from the page as arguments and returns
  the new store together with the alerts and the navigation it performs.
-/

set_option exponentiation.threshold 5000

namespace Sbp

/-! ## Numbers -/

/-- Number of units of `2^-1074` in the value one. -/
def unitsPerOne : Nat := 2 ^ 1074

/-- First magnitude, in units, that is too large for a finite double
(`2^1024`). -/
def overflowUnits : Nat := 2 ^ 2098

/-- A JavaScript number. -/
inductive JSNum where
  | nan : JSNum
  | posInf : JSNum
  | negInf : JSNum
  | fin (k : Int) : JSNum
  deriving DecidableEq

/-- Worker of `bitLen`; the first argument bounds the number of halvings. -/
def bitLenAux : Nat → Nat → Nat
  | 0, _ => 0
  | f + 1, n => if n = 0 then 0 else bitLenAux f (n / 2) + 1

/-- Number of binary digits of `n` (`0` for `0`). -/
def bitLen (n : Nat) : Nat := bitLenAux n n

/-- The double nearest to the rational `num / den` units, ties to even, as
a count of units.  Below `2^53` units doubles are one unit apart; a value
with `b > 53` binary digits lies among doubles `2^(b-53)` units apart. -/
def roundFrac (num den : Nat) : Nat :=
  let step := 2 ^ (bitLen (num / den) - 53)
  let q := num / (den * step)
  let twiceRest := 2 * (num % (den * step))
  if twiceRest < den * step then q * step
  else if den * step < twiceRest then (q + 1) * step
  else if q % 2 = 0 then q * step else (q + 1) * step

/-- A rounded magnitude with its sign; magnitudes from `2^1024` on are
infinite. -/
def ofSignMag (negative : Bool) (m : Nat) : JSNum :=
  if overflowUnits ≤ m then (if negative then JSNum.negInf else JSNum.posInf)
  else JSNum.fin (if negative then -(m : Int) else (m : Int))

namespace JSNum

/-- The number with integer value `n` (exact below `2^53`). -/
def ofInt (n : Int) : JSNum :=
  ofSignMag (decide (n < 0)) (roundFrac (n.natAbs * unitsPerOne) 1)

/-- The number with natural value `n`. -/
def ofNat (n : Nat) : JSNum := ofInt (n : Int)

/-- Unary minus. -/
def neg : JSNum → JSNum
  | nan => nan
  | posInf => negInf
  | negInf => posInf
  | fin k => fin (-k)

/-- The operator `+` on two numbers. -/
def add : JSNum → JSNum → JSNum
  | nan, _ => nan
  | _, nan => nan
  | posInf, negInf => nan
  | negInf, posInf => nan
  | posInf, _ => posInf
  | _, posInf => posInf
  | negInf, _ => negInf
  | _, negInf => negInf
  | fin a, fin b => ofSignMag (decide (a + b < 0)) (roundFrac (a + b).natAbs 1)

/-- The operator `-` on two numbers. -/
def sub (x y : JSNum) : JSNum := add x (neg y)

/-- Sign of a product or quotient of two numbers that are not `NaN`. -/
def isNeg : JSNum → Bool
  | negInf => true
  | fin k => decide (k < 0)
  | _ => false

/-- The operator `*` on two numbers. -/
def mul : JSNum → JSNum → JSNum
  | nan, _ => nan
  | _, nan => nan
  | fin a, fin b =>
      ofSignMag (xor (decide (a < 0)) (decide (b < 0)))
        (roundFrac (a.natAbs * b.natAbs) unitsPerOne)
  | fin a, y => if a = 0 then nan else if xor (decide (a < 0)) (isNeg y) then negInf else posInf
  | x, fin b => if b = 0 then nan else if xor (isNeg x) (decide (b < 0)) then negInf else posInf
  | x, y => if xor (isNeg x) (isNeg y) then negInf else posInf

/-- The operator `/` on two numbers (the zero divisor is `+0`). -/
def div : JSNum → JSNum → JSNum
  | nan, _ => nan
  | _, nan => nan
  | fin a, fin b =>
      if b = 0 then (if a = 0 then nan else if a < 0 then negInf else posInf)
      else ofSignMag (xor (decide (a < 0)) (decide (b < 0)))
        (roundFrac (a.natAbs * unitsPerOne) b.natAbs)
  | fin _, _ => fin 0
  | x, fin b => if xor (isNeg x) (decide (b < 0)) then negInf else posInf
  | _, _ => nan

/-- The operator `<` on two numbers. -/
def lt : JSNum → JSNum → Bool
  | nan, _ => false
  | _, nan => false
  | negInf, negInf => false
  | negInf, _ => true
  | _, negInf => false
  | posInf, _ => false
  | fin _, posInf => true
  | fin a, fin b => decide (a < b)

/-- The operator `<=` on two numbers. -/
def le : JSNum → JSNum → Bool
  | nan, _ => false
  | _, nan => false
  | negInf, _ => true
  | _, negInf => false
  | _, posInf => true
  | posInf, _ => false
  | fin a, fin b => decide (a ≤ b)

/-- ToBoolean on a number: false for the zeros and `NaN`. -/
def truthy : JSNum → Bool
  | nan => false
  | fin k => decide (k ≠ 0)
  | _ => true

/-- The expression `x || y` on numbers. -/
def orElse (x y : JSNum) : JSNum := if truthy x then x else y

/-- The function `Math.round`: the nearest integer, halves upwards.  A double of
magnitude `2^52` or more is an integer already. -/
def mathRound : JSNum → JSNum
  | fin k =>
      if 2 ^ 52 * (unitsPerOne : Int) ≤ |k| then fin k
      else fin ((2 * k + unitsPerOne) / (2 * unitsPerOne) * unitsPerOne)
  | x => x

/-- The function `Math.min` on two numbers. -/
def mathMin (x y : JSNum) : JSNum :=
  match x, y with
  | nan, _ => nan
  | _, nan => nan
  | x, y => if lt y x then y else x

/-- Whether the number is finite. -/
def isFinite : JSNum → Bool
  | fin _ => true
  | _ => false

end JSNum

/-! ## Stored records and the store -/

/-- One entry of the transaction log: the object the add handler pushes. -/
structure Transaction where
  desc : String
  amount : JSNum
  type : String
  date : String
  deriving DecidableEq

/-- One savings goal: the object the add-goal handler pushes. -/
structure Goal where
  name : String
  target : JSNum
  saved : JSNum
  deriving DecidableEq

/-- The four slots of `localStorage` the script uses; `none` is an absent
slot.  `income` holds the Number value of the slot text, the two lists hold
the value of the JSON text. -/
structure Store where
  username : Option String
  transactions : Option (List Transaction)
  goals : Option (List Goal)
  income : Option JSNum
  deriving DecidableEq

/-- The store of a browser that never ran the application. -/
def Store.empty : Store := ⟨none, none, none, none⟩

/-- A number after `JSON.stringify` and `JSON.parse`: a finite number is
kept; `NaN` and the infinities are written as `null`, which every reader of
`amount`, `target` and `saved` in the script converts to `0` (they are only
used in `+`, `/` and `toFixed`). -/
def jsonNum : JSNum → JSNum
  | JSNum.fin k => JSNum.fin k
  | _ => JSNum.fin 0

/-- A transaction after `JSON.stringify` and `JSON.parse`. -/
def jsonTx (t : Transaction) : Transaction :=
  ⟨t.desc, jsonNum t.amount, t.type, t.date⟩

/-- A goal after `JSON.stringify` and `JSON.parse`. -/
def jsonGoal (g : Goal) : Goal := ⟨g.name, jsonNum g.target, jsonNum g.saved⟩

/-- `readJSON(key, fallback)`: `raw ? JSON.parse(raw) : fallback`, where
`slot` is the slot of `key`; an absent slot gives the fallback, and a slot
that is present holds JSON text, which is never empty. -/
def readJSON {α : Type} (slot : Option α) (fallback : α) : α :=
  match slot with
  | some value => value
  | none => fallback

/-- `writeJSON(key, value)`: the new content of the slot of `key`, the text
`JSON.stringify(value)`, kept as the value `json value` that `JSON.parse`
reads from it. -/
def writeJSON {α : Type} (json : α → α) (value : α) : Option α := some (json value)

/-- `getTransactions()`. -/
def getTransactions (s : Store) : List Transaction := readJSON s.transactions []

/-- `saveTransactions(arr)`. -/
def saveTransactions (s : Store) (arr : List Transaction) : Store :=
  ⟨s.username, writeJSON (List.map jsonTx) arr, s.goals, s.income⟩

/-- `getGoals()`. -/
def getGoals (s : Store) : List Goal := readJSON s.goals []

/-- `saveGoals(arr)`. -/
def saveGoals (s : Store) (arr : List Goal) : Store :=
  ⟨s.username, s.transactions, writeJSON (List.map jsonGoal) arr, s.income⟩

/-- `getIncome()`: `Number(localStorage.getItem('sbp_income') || 0)`. -/
def getIncome (s : Store) : JSNum :=
  match s.income with
  | some d => d
  | none => JSNum.fin 0

/-- `saveIncome(v)` for a number `v`. -/
def saveIncome (s : Store) (v : JSNum) : Store :=
  ⟨s.username, s.transactions, s.goals, some v⟩

/-- `getUsername()`: `localStorage.getItem('sbp_username') || ''`. -/
def getUsername (s : Store) : String :=
  match s.username with
  | some name => name
  | none => ""

/-- `saveUsername(name)`. -/
def saveUsername (s : Store) (name : String) : Store :=
  ⟨some name, s.transactions, s.goals, s.income⟩

/-- What a handler leaves behind: the store, the alerts shown, in order, and
the last value assigned to `window.location.href`, if any. -/
structure Outcome where
  store : Store
  alerts : List String
  nav : Option String
  deriving DecidableEq

/-- `logout()`. -/
def logout (s : Store) : Outcome :=
  ⟨⟨none, s.transactions, s.goals, s.income⟩, [], some "login.html"⟩

/-- `requireLogin()`: the navigation it performs, if any; `page` is
`document.body.dataset.page`, `none` when the attribute is missing. -/
def requireLogin (s : Store) (page : Option String) : Option String :=
  let name := getUsername s
  if name = "" ∧ page ≠ some "login" then some "login.html" else none

/-! ## Text from the page -/

/-- The code points `String.prototype.trim` removes: WhiteSpace and
LineTerminator of ECMAScript. -/
def isTrimChar (c : Char) : Bool :=
  decide (c.toNat ∈ [0x09, 0x0A, 0x0B, 0x0C, 0x0D, 0x20, 0xA0, 0x1680, 0x2028, 0x2029,
    0x202F, 0x205F, 0x3000, 0xFEFF]) || (decide (0x2000 ≤ c.toNat) && decide (c.toNat ≤ 0x200A))

/-- `String.prototype.trim`. -/
def jsTrim (text : String) : String :=
  String.mk ((text.toList.dropWhile isTrimChar).reverse.dropWhile isTrimChar).reverse

/-! ## Login page -/

/-- What `setupLogin()` does before any event: the navigation, and whether a
submit listener was attached (`hasForm` tells whether `loginForm` exists). -/
structure LoginSetup where
  nav : Option String
  listening : Bool
  deriving DecidableEq

/-- `setupLogin()`. -/
def setupLogin (s : Store) (page : Option String) (hasForm : Bool) : LoginSetup :=
  ⟨requireLogin s page, hasForm⟩

/-- The submit listener of `setupLogin`; `nameValue` is `nameInput.value`. -/
def loginSubmit (s : Store) (nameValue : String) : Outcome :=
  let name := jsTrim nameValue
  if name = "" then ⟨s, ["Please enter your name"], none⟩
  else ⟨saveUsername s name, [], some "dashboard.html"⟩

/-! ## Dashboard -/

/-- The three numbers `updateDashboard` hands to `rupee` for the cards. -/
structure Cards where
  usedIncome : JSNum
  totalExpenses : JSNum
  balance : JSNum
  deriving DecidableEq

/-- `list.filter(t => t.type === kind).reduce((s, t) => s + t.amount, 0)`. -/
def totalOfType (kind : String) (list : List Transaction) : JSNum :=
  (list.filter (fun t => decide (t.type = kind))).foldl (fun s t => JSNum.add s t.amount)
    (JSNum.fin 0)

/-- `updateDashboard()`. -/
def updateDashboard (s : Store) : Cards :=
  let list := getTransactions s
  let income := getIncome s
  let totalIncomeFromTx := totalOfType "income" list
  let usedIncome := JSNum.orElse income totalIncomeFromTx
  let totalExpenses := totalOfType "expense" list
  let balance := JSNum.sub usedIncome totalExpenses
  ⟨usedIncome, totalExpenses, balance⟩

/-- The click listener of `saveIncome` in `setupDashboard`; `entered` is
`Number(incomeInput.value)`. -/
def saveIncomeClick (s : Store) (entered : JSNum) : Outcome :=
  let val := JSNum.orElse entered (JSNum.fin 0)
  ⟨saveIncome s val, ["Income saved"], none⟩

/-! ## Transactions -/

/-- The click listener of `addTrans` in `setupTransactions`: `descValue` is
`desc.value`, `a` is `Number(amt.value)`, `ty` is `type.value` and `now` is
`new Date().toISOString()`. -/
def addTransClick (s : Store) (descValue : String) (a : JSNum) (ty : String)
    (now : String) : Outcome :=
  let d := jsTrim descValue
  if d = "" ∨ JSNum.truthy a = false ∨ JSNum.le a (JSNum.fin 0) = true then
    ⟨s, ["Enter valid details"], none⟩
  else
    let arr := getTransactions s
    ⟨saveTransactions s (arr ++ [⟨d, a, ty, now⟩]), [], none⟩

/-- `arr.splice(index, 1)` for an integer `index`: what is left of `arr`. -/
def splice1 {α : Type} (arr : List α) (index : Int) : List α :=
  let len : Int := arr.length
  let start : Int := if index < 0 then max (len + index) 0 else min index len
  let deleteCount : Int := min (max 1 0) (len - start)
  arr.take start.toNat ++ arr.drop (start + deleteCount).toNat

/-- `deleteTransaction(index)`. -/
def deleteTransaction (s : Store) (index : Int) : Outcome :=
  let arr := getTransactions s
  ⟨saveTransactions s (splice1 arr index), [], none⟩

/-! ## Goals -/

/-- The click listener of `addGoalBtn` in `setupGoals`: `nameValue` is
`name.value` and `t` is `Number(target.value)`. -/
def addGoalClick (s : Store) (nameValue : String) (t : JSNum) : Outcome :=
  let n := jsTrim nameValue
  if n = "" ∨ JSNum.truthy t = false ∨ JSNum.le t (JSNum.fin 0) = true then
    ⟨s, ["Enter valid goal"], none⟩
  else
    let arr := getGoals s
    ⟨saveGoals s (arr ++ [⟨n, t, JSNum.fin 0⟩]), [], none⟩

/-- The percentage `pct` of `renderGoals`:
`Math.min(100, Math.round((g.saved / g.target) * 100))`. -/
def goalPct (g : Goal) : JSNum :=
  JSNum.mathMin (JSNum.ofNat 100)
    (JSNum.mathRound (JSNum.mul (JSNum.div g.saved g.target) (JSNum.ofNat 100)))

/-- The percentage as the specification writes it:
`round(min(100, saved/target*100))`. -/
def goalProgressPercent (g : Goal) : JSNum :=
  JSNum.mathRound
    (JSNum.mathMin (JSNum.ofNat 100) (JSNum.mul (JSNum.div g.saved g.target) (JSNum.ofNat 100)))

/-- `addToGoal(i)`; `amt` is `Number(prompt(...))`.  When `arr[i]` is
undefined the assignment throws and nothing is saved. -/
def addToGoal (s : Store) (i : Nat) (amt : JSNum) : Outcome :=
  if JSNum.truthy amt = false ∨ JSNum.le amt (JSNum.fin 0) = true then ⟨s, [], none⟩
  else
    let arr := getGoals s
    match arr.get? i with
    | none => ⟨s, [], none⟩
    | some g => ⟨saveGoals s (arr.set i ⟨g.name, g.target, JSNum.add g.saved amt⟩), [], none⟩

/-- `removeGoal(i)`; `confirmed` is the answer to `confirm(...)`. -/
def removeGoal (s : Store) (i : Int) (confirmed : Bool) : Outcome :=
  if confirmed = false then ⟨s, [], none⟩
  else
    let arr := getGoals s
    ⟨saveGoals s (splice1 arr i), [], none⟩

/-! ## JSON text -/

/-- The decimal digit of a number below ten. -/
def digitChar (d : Nat) : Char := Char.ofNat (48 + d)

/-- Whether the character is a decimal digit. -/
def isDigit (c : Char) : Bool := decide (48 ≤ c.toNat) && decide (c.toNat ≤ 57)

/-- The value of a decimal digit. -/
def digitVal (c : Char) : Nat := c.toNat - 48

/-- Worker of `decDigits`; the first argument bounds the number of digits. -/
def decDigitsAux : Nat → Nat → List Char → List Char
  | 0, _, acc => acc
  | f + 1, n, acc =>
      if n < 10 then digitChar n :: acc
      else decDigitsAux f (n / 10) (digitChar (n % 10) :: acc)

/-- The decimal digits of a natural number, most significant first. -/
def decDigits (n : Nat) : List Char := decDigitsAux (n + 1) n []

/-- The natural number written by a list of decimal digits. -/
def decValue (ds : List Char) : Nat := ds.foldl (fun acc c => acc * 10 + digitVal c) 0

/-- The characters a JSON number is made of. -/
def isNumChar (c : Char) : Bool :=
  isDigit c || decide (c = '.') || decide (c = 'e') || decide (c = 'E') || decide (c = '+')
    || decide (c = '-')

/-- The double nearest to `m * 10^e`, as a count of units (not yet checked
for overflow). -/
def decimalUnits (m : Nat) (e : Int) : Nat :=
  if 0 ≤ e then roundFrac (m * 10 ^ e.toNat * unitsPerOne) 1
  else roundFrac (m * unitsPerOne) (10 ^ (-e).toNat)

/-- The exponent part of a JSON number, after the mantissa: empty, or `e` or `E`,
an optional sign and at least one digit. -/
def parseExponent (t : List Char) : Option Int :=
  match t with
  | [] => some 0
  | x :: r =>
    if x = 'e' ∨ x = 'E' then
      match r with
      | [] => none
      | s :: r2 =>
        if s = '-' then
          (if r2 ≠ [] ∧ r2.all isDigit = true then some (-(decValue r2 : Int)) else none)
        else if s = '+' then
          (if r2 ≠ [] ∧ r2.all isDigit = true then some (decValue r2 : Int) else none)
        else (if r.all isDigit = true then some (decValue r : Int) else none)
    else none

/-- The magnitude, in units, of an unsigned JSON number: digits without a leading
zero, an optional fraction and an optional exponent. -/
def parseMagnitude (t : List Char) : Option Nat :=
  let intPart := t.takeWhile isDigit
  let t2 := t.dropWhile isDigit
  if intPart = [] ∨ (1 < intPart.length ∧ intPart.head? = some '0') then none
  else
    match t2 with
    | [] => some (decimalUnits (decValue intPart) 0)
    | x :: r =>
      if x = '.' then
        let frac := r.takeWhile isDigit
        if frac = [] then none
        else
          match parseExponent (r.dropWhile isDigit) with
          | some e => some (decimalUnits (decValue (intPart ++ frac)) (e - frac.length))
          | none => none
      else
        match parseExponent t2 with
        | some e => some (decimalUnits (decValue intPart) e)
        | none => none

/-- The value of a JSON number token. -/
def parseNumberToken (tok : List Char) : Option JSNum :=
  match tok with
  | [] => none
  | x :: r =>
    if x = '-' then (parseMagnitude r).map (ofSignMag true)
    else (parseMagnitude tok).map (ofSignMag false)

/-- The text `Number::toString` builds from the digits `ds` of the shortest
decimal and the position `n` of the decimal point. -/
def formatDigits (ds : List Char) (n : Int) : List Char :=
  let k : Int := ds.length
  if k ≤ n ∧ n ≤ 21 then ds ++ List.replicate (n - k).toNat '0'
  else if 0 < n ∧ n ≤ 21 then ds.take n.toNat ++ '.' :: ds.drop n.toNat
  else if -6 < n ∧ n ≤ 0 then '0' :: '.' :: (List.replicate (-n).toNat '0' ++ ds)
  else
    let expText := (if n - 1 < 0 then '-' else '+') :: decDigits (n - 1).natAbs
    match ds with
    | [] => []
    | [d] => d :: 'e' :: expText
    | d :: rest => d :: '.' :: (rest ++ 'e' :: expText)

/-- Worker of `stripZeros`. -/
def stripZerosAux : Nat → Nat → Nat → Nat × Nat
  | 0, s, z => (s, z)
  | f + 1, s, z => if s ≠ 0 ∧ s % 10 = 0 then stripZerosAux f (s / 10) (z + 1) else (s, z)

/-- The number without its trailing decimal zeros, and how many there were. -/
def stripZeros (s : Nat) : Nat × Nat := stripZerosAux s s 0

/-- The text of the decimal `c * 10^e` in the format of `Number::toString`. -/
def candidateText (c : Nat) (e : Int) : List Char :=
  let sz := stripZeros c
  let ds := decDigits sz.1
  formatDigits ds ((ds.length : Int) + e + sz.2)

/-- Worker of `decimalExponent` for values below one: the least `j` with
`k * 10^j >= 2^1074`. -/
def smallExponentAux : Nat → Nat → Nat → Nat
  | 0, _, j => j
  | f + 1, k, j => if unitsPerOne ≤ k * 10 ^ j then j else smallExponentAux f k (j + 1)

/-- The position `n` of the decimal point of a positive value of `k` units:
`10^(n-1) <= value < 10^n`. -/
def decimalExponent (k : Nat) : Int :=
  if unitsPerOne ≤ k then ((decDigits (k / unitsPerOne)).length : Int)
  else 1 - (smallExponentAux 400 k 0 : Int)

/-- Whether a text reads back as `k` units. -/
def readsAs (k : Nat) (text : List Char) : Bool :=
  decide (parseMagnitude text = some k) && text.all isNumChar

/-- The candidates with `nd` digits for a value of `k` units: the two decimals
around the value, the nearer one first. -/
def candidates (k : Nat) (nd : Nat) : List (List Char) :=
  let n := decimalExponent k
  let e : Int := n - nd
  let num := if 0 ≤ e then k else k * 10 ^ (-e).toNat
  let den := if 0 ≤ e then unitsPerOne * 10 ^ e.toNat else unitsPerOne
  let lo := num / den
  let loText := candidateText lo e
  let hiText := candidateText (lo + 1) e
  if 2 * (num % den) ≤ den then [loText, hiText] else [hiText, loText]

/-- Worker of `shortestText`: tries `nd`, `nd + 1`, ... digits. -/
def shortestAux : Nat → Nat → Nat → Option (List Char)
  | 0, _, _ => none
  | f + 1, k, nd =>
    match (candidates k nd).find? (readsAs k) with
    | some text => some text
    | none => shortestAux f k (nd + 1)

/-- The exact decimal of `k` units, with integer mantissa and exponent `-1074`. -/
def exactText (k : Nat) : List Char :=
  decDigits (k * 5 ^ 1074) ++ 'e' :: '-' :: decDigits 1074

/-- The text of a positive finite number of `k` units: the shortest decimal, of
at most 17 digits, that reads back as the number. -/
def positiveText (k : Nat) : List Char :=
  match shortestAux 17 k 1 with
  | some text => text
  | none => exactText k

/-- The JSON text of a number: `null` for `NaN` and the infinities. -/
def numberToJSON : JSNum → List Char
  | JSNum.fin k =>
    if k = 0 then ['0']
    else if k < 0 then '-' :: positiveText k.natAbs
    else positiveText k.natAbs
  | _ => ['n', 'u', 'l', 'l']


/-- Whether a number is a finite double: its magnitude is a multiple of the
spacing of the doubles around it and is below `2^1024`. -/
def isFiniteDouble : JSNum → Bool
  | JSNum.fin k =>
    decide (k.natAbs % 2 ^ (bitLen k.natAbs - 53) = 0) && decide (k.natAbs < overflowUnits)
  | _ => false

/-- Whether a number is one JavaScript can hold: a finite double, `NaN` or an
infinity. -/
def isDouble : JSNum → Bool
  | JSNum.fin k => isFiniteDouble (JSNum.fin k)
  | _ => true

/-- The lowercase hexadecimal digit of a number below sixteen. -/
def hexChar (n : Nat) : Char := if n < 10 then Char.ofNat (48 + n) else Char.ofNat (87 + n)

/-- The value of a hexadecimal digit. -/
def hexVal (c : Char) : Option Nat :=
  if 48 ≤ c.toNat ∧ c.toNat ≤ 57 then some (c.toNat - 48)
  else if 97 ≤ c.toNat ∧ c.toNat ≤ 102 then some (c.toNat - 87)
  else if 65 ≤ c.toNat ∧ c.toNat ≤ 70 then some (c.toNat - 55)
  else none

/-- One character of a string as `JSON.stringify` writes it (QuoteJSONString). -/
def quoteChar (c : Char) : List Char :=
  if c = '"' then ['\\', '"']
  else if c = '\\' then ['\\', '\\']
  else if c.toNat = 8 then ['\\', 'b']
  else if c.toNat = 12 then ['\\', 'f']
  else if c.toNat = 10 then ['\\', 'n']
  else if c.toNat = 13 then ['\\', 'r']
  else if c.toNat = 9 then ['\\', 't']
  else if c.toNat < 32 then
    ['\\', 'u', '0', '0', hexChar (c.toNat / 16), hexChar (c.toNat % 16)]
  else [c]

/-- The characters of a string between its two quotes. -/
def quoteBody (s : List Char) : List Char := s.flatMap quoteChar

/-- A string as `JSON.stringify` writes it, without the opening quote. -/
def quoteTail (s : String) : List Char := quoteBody s.toList ++ ['"']

/-- The character a one-letter escape stands for. -/
def unescape (e : Char) : Option Char :=
  if e = '"' then some '"'
  else if e = '\\' then some '\\'
  else if e = '/' then some '/'
  else if e = 'b' then some (Char.ofNat 8)
  else if e = 'f' then some (Char.ofNat 12)
  else if e = 'n' then some (Char.ofNat 10)
  else if e = 'r' then some (Char.ofNat 13)
  else if e = 't' then some (Char.ofNat 9)
  else none

/-- Reads a JSON string after its opening quote: the string and the text after
the closing quote.  The first argument bounds the number of characters read;
an escape that names a surrogate code unit is outside the model. -/
def parseStringBody : Nat → List Char → Option (List Char × List Char)
  | 0, _ => none
  | _ + 1, [] => none
  | f + 1, c :: rest =>
    if c = '"' then some ([], rest)
    else if c = '\\' then
      match rest with
      | [] => none
      | e :: rest2 =>
        if e = 'u' then
          match rest2 with
          | a :: b :: c2 :: d :: rest3 =>
            match hexVal a, hexVal b, hexVal c2, hexVal d with
            | some va, some vb, some vc, some vd =>
              let code := ((va * 16 + vb) * 16 + vc) * 16 + vd
              if 0xD800 ≤ code ∧ code ≤ 0xDFFF then none
              else (parseStringBody f rest3).map (fun p => (Char.ofNat code :: p.1, p.2))
            | _, _, _, _ => none
          | _ => none
        else
          match unescape e with
          | some ch => (parseStringBody f rest2).map (fun p => (ch :: p.1, p.2))
          | none => none
    else if c.toNat < 32 then none
    else (parseStringBody f rest).map (fun p => (c :: p.1, p.2))

/-- Reads the given literal text: what follows it. -/
def expect : List Char → List Char → Option (List Char)
  | [], inp => some inp
  | _ :: _, [] => none
  | c :: lit, x :: inp => if x = c then expect lit inp else none

/-- Reads a JSON number or `null`; `null` is read as the `0` every use of an
amount converts it to. -/
def parseAmount (inp : List Char) : Option (JSNum × List Char) :=
  match expect ['n', 'u', 'l', 'l'] inp with
  | some rest => some (JSNum.fin 0, rest)
  | none =>
    (parseNumberToken (inp.takeWhile isNumChar)).map (fun x => (x, inp.dropWhile isNumChar))

/-- The text before the description of a transaction. -/
def keyDesc : List Char := "\x7b\"desc\":\"".toList

/-- The text before the amount. -/
def keyAmount : List Char := ",\"amount\":".toList

/-- The text before the type. -/
def keyType : List Char := ",\"type\":\"".toList

/-- The text before the date. -/
def keyDate : List Char := ",\"date\":\"".toList

/-- A transaction as `JSON.stringify` writes it: the four properties in the
order the add handler creates them. -/
def txToJSON (t : Transaction) : List Char :=
  keyDesc ++ (quoteTail t.desc ++ (keyAmount ++ (numberToJSON t.amount ++
    (keyType ++ (quoteTail t.type ++ (keyDate ++ (quoteTail t.date ++ ['}'])))))))

/-- Reads one transaction object in the layout of `txToJSON`. -/
def parseTx (inp : List Char) : Option (Transaction × List Char) :=
  (expect keyDesc inp).bind fun r1 =>
  (parseStringBody (r1.length + 1) r1).bind fun d =>
  (expect keyAmount d.2).bind fun r2 =>
  (parseAmount r2).bind fun a =>
  (expect keyType a.2).bind fun r3 =>
  (parseStringBody (r3.length + 1) r3).bind fun ty =>
  (expect keyDate ty.2).bind fun r4 =>
  (parseStringBody (r4.length + 1) r4).bind fun dt =>
  (expect ['}'] dt.2).map fun r5 =>
    (⟨String.mk d.1, a.1, String.mk ty.1, String.mk dt.1⟩, r5)

/-- The elements of an array as `JSON.stringify` writes them, separated by
commas. -/
def joinTx : List Transaction → List Char
  | [] => []
  | [t] => txToJSON t
  | t :: u :: rest => txToJSON t ++ ',' :: joinTx (u :: rest)

/-- Reads the elements of a non-empty array up to the closing bracket; the first
argument bounds the number of elements. -/
def parseItems : Nat → List Char → Option (List Transaction × List Char)
  | 0, _ => none
  | f + 1, inp =>
    (parseTx inp).bind fun p =>
      match p.2 with
      | [] => none
      | x :: rest =>
        if x = ']' then some ([p.1], rest)
        else if x = ',' then (parseItems f rest).map (fun q => (p.1 :: q.1, q.2))
        else none

/-- `JSON.stringify(arr)` for an array of transactions. -/
def JSON.stringify (arr : List Transaction) : String :=
  String.mk ('[' :: (joinTx arr ++ [']']))

/-- `JSON.parse(text)` on the texts `JSON.stringify` writes for an array of
transactions: no white space, the four properties in their order.  The result
is `none` for a text that is not JSON and for JSON texts of another layout,
which the model leaves out. -/
def JSON.parse (text : String) : Option (List Transaction) :=
  match text.toList with
  | [] => none
  | x :: rest =>
    if x = '[' then
      (if rest = [']'] then some []
       else
        match parseItems rest.length rest with
        | some (items, []) => some items
        | _ => none)
    else none

namespace Text

/-- The text held by `localStorage` under the four keys of the script; `none`
is a key that is not set. -/
structure LocalStorage where
  sbp_username : Option String
  sbp_transactions : Option String
  sbp_goals : Option String
  sbp_income : Option String
  deriving DecidableEq

/-- `readJSON(key, fallback)` on the text `raw` found under the key:
`raw ? JSON.parse(raw) : fallback`; an absent text and the empty text are
falsy.  The result is `none` when `parse` has no value for the text. -/
def readJSON {α : Type} (parse : String → Option α) (raw : Option String) (fallback : α) :
    Option α :=
  match raw with
  | none => some fallback
  | some text => if text = "" then some fallback else parse text

/-- `writeJSON(key, value)`: the text stored under the key. -/
def writeJSON {α : Type} (stringify : α → String) (value : α) : Option String :=
  some (stringify value)

/-- `getTransactions()`. -/
def getTransactions (ls : LocalStorage) : Option (List Transaction) :=
  readJSON JSON.parse ls.sbp_transactions []

/-- `saveTransactions(arr)`. -/
def saveTransactions (ls : LocalStorage) (arr : List Transaction) : LocalStorage :=
  ⟨ls.sbp_username, writeJSON JSON.stringify arr, ls.sbp_goals, ls.sbp_income⟩

end Text


/-! ## Sequences of user actions -/

/-- One user action that changes the store, with what the user entered. -/
inductive Action where
  | saveIncome (entered : JSNum) : Action
  | addTrans (descValue : String) (a : JSNum) (ty now : String) : Action
  | deleteTrans (index : Int) : Action
  | addGoal (nameValue : String) (t : JSNum) : Action
  | addToGoal (i : Nat) (amt : JSNum) : Action
  | removeGoal (i : Int) (confirmed : Bool) : Action

/-- The store after one action. -/
def perform (s : Store) : Action → Store
  | Action.saveIncome entered => (saveIncomeClick s entered).store
  | Action.addTrans descValue a ty now => (addTransClick s descValue a ty now).store
  | Action.deleteTrans index => (deleteTransaction s index).store
  | Action.addGoal nameValue t => (addGoalClick s nameValue t).store
  | Action.addToGoal i amt => (addToGoal s i amt).store
  | Action.removeGoal i confirmed => (removeGoal s i confirmed).store

/-- The store after a sequence of actions. -/
def runActions (s : Store) (actions : List Action) : Store := actions.foldl perform s

/-- The amounts of the two stored lists are all `>= 0`. -/
def ListsNotNegative (s : Store) : Prop :=
  (∀ t ∈ getTransactions s, JSNum.le (JSNum.fin 0) t.amount = true) ∧
  ∀ g ∈ getGoals s,
    JSNum.le (JSNum.fin 0) g.target = true ∧ JSNum.le (JSNum.fin 0) g.saved = true

/-! ## Values used in the examples -/

/-- An expense entry with the given amount. -/
def expenseOf (amount : JSNum) : Transaction := ⟨"item", amount, "expense", "2024-01-01T00:00:00.000Z"⟩

/-- An income entry with the given amount. -/
def incomeOf (amount : JSNum) : Transaction := ⟨"pay", amount, "income", "2024-01-01T00:00:00.000Z"⟩

/-- A store whose declared income is `-5`: what the save-income listener leaves
when `-5` is entered on an empty store. -/
def negativeIncomeStore : Store := ⟨none, none, none, some (JSNum.ofInt (-5))⟩

/-- Declared income 500 with expenses of 200 and 100. -/
def budgetStore : Store :=
  ⟨none, some [expenseOf (JSNum.ofNat 200), expenseOf (JSNum.ofNat 100)], none,
    some (JSNum.ofNat 500)⟩

/-- Declared income 500 with one income entry of 1000. -/
def overrideStore : Store :=
  ⟨none, some [incomeOf (JSNum.ofNat 1000)], none, some (JSNum.ofNat 500)⟩

/-- A logged-in store with three entries. -/
def threeStore : Store :=
  ⟨some "Asha", some [expenseOf (JSNum.ofNat 1), incomeOf (JSNum.ofNat 2),
    expenseOf (JSNum.ofNat 3)], none, none⟩

/-- The number `n / 10`, which is also the value of the decimal literal with
one digit after the point: both are the double nearest to the exact tenth. -/
def tenths (n : Nat) : JSNum := JSNum.div (JSNum.ofNat n) (JSNum.ofNat 10)

/-- Expenses of 0.1, 0.2 and 0.3. -/
def tenthsList : List Transaction :=
  [expenseOf (tenths 1), expenseOf (tenths 2), expenseOf (tenths 3)]

/-- A store holding the given transaction list and nothing else. -/
def storeOf (list : List Transaction) : Store := ⟨none, some list, none, none⟩

/-- A goal whose target and saved amount are both `Infinity`, as `JSON.parse`
reads them from the number text `1e999`. -/
def infiniteGoal : Goal := ⟨"Laptop", JSNum.posInf, JSNum.posInf⟩

/-- A stored transaction log whose second amount is the number text `1e999`. -/
def overflowText : String :=
  "[\x7b\"desc\":\"item\",\"amount\":1,\"type\":\"expense\"," ++
    "\"date\":\"2024-01-01T00:00:00.000Z\"\x7d," ++
    "\x7b\"desc\":\"item\",\"amount\":1e999,\"type\":\"expense\"," ++
    "\"date\":\"2024-01-01T00:00:00.000Z\"\x7d]"

/-- The store of values for `overflowText`: the second amount is `Infinity`. -/
def overflowStore : Store :=
  storeOf [expenseOf (JSNum.ofNat 1), expenseOf JSNum.posInf]

/-- The amounts, in list order, of the entries of the given type. -/
def amountsOfType (kind : String) (list : List Transaction) : List JSNum :=
  (list.filter (fun t => decide (t.type = kind))).map (fun t => t.amount)

/-- The sum of a list of numbers, added from the left starting at `0`. -/
def sumAmounts (amounts : List JSNum) : JSNum := amounts.foldl JSNum.add (JSNum.fin 0)

/-- The exact number of units of a finite number (`0` for the others). -/
def unitsOf : JSNum → Int
  | JSNum.fin k => k
  | _ => 0

/-! ## Rounding lemmas -/

theorem bitLenAux_zero (f : Nat) : bitLenAux f 0 = 0 := by
  cases f <;> simp [bitLenAux]

theorem bitLenAux_bounds (f : Nat) :
    ∀ n, n ≤ f → n < 2 ^ bitLenAux f n ∧ (n ≠ 0 → 2 ^ bitLenAux f n ≤ 2 * n) := by
  induction f with
  | zero =>
    intro n hn
    have h0 : n = 0 := by omega
    subst h0
    simp [bitLenAux]
  | succ f ih =>
    intro n hn
    by_cases h0 : n = 0
    · subst h0
      simp [bitLenAux]
    · have hhalf : n / 2 ≤ f := by omega
      obtain ⟨h1, h2⟩ := ih (n / 2) hhalf
      simp only [bitLenAux, h0, if_false, pow_succ]
      refine ⟨by omega, fun _ => ?_⟩
      by_cases hz : n / 2 = 0
      · have hb : bitLenAux f (n / 2) = 0 := by rw [hz]; exact bitLenAux_zero f
        rw [hb]
        omega
      · have := h2 hz
        omega

theorem lt_two_pow_bitLen (n : Nat) : n < 2 ^ bitLen n :=
  (bitLenAux_bounds n n (Nat.le_refl n)).1

theorem two_pow_bitLen_le (n : Nat) (h : n ≠ 0) : 2 ^ bitLen n ≤ 2 * n :=
  (bitLenAux_bounds n n (Nat.le_refl n)).2 h

theorem bitLen_le_of_lt_two_pow (n b : Nat) (h : n < 2 ^ b) : bitLen n ≤ b := by
  by_cases h0 : n = 0
  · subst h0
    simp [bitLen, bitLenAux_zero]
  · by_contra hlt
    have h1 : b + 1 ≤ bitLen n := by omega
    have h2 : 2 ^ (b + 1) ≤ 2 ^ bitLen n := Nat.pow_le_pow_right (by norm_num) h1
    have h3 := two_pow_bitLen_le n h0
    rw [pow_succ] at h2
    omega

/-- The spacing used for a value is at most the value. -/
theorem step_le_self (n : Nat) (h : n ≠ 0) : 2 ^ (bitLen n - 53) ≤ n := by
  have h1 := two_pow_bitLen_le n h
  have hpos : 0 < bitLen n := by
    by_contra hb
    have hb0 : bitLen n = 0 := by omega
    have h4 := lt_two_pow_bitLen n
    rw [hb0] at h4
    simp at h4
    exact h h4
  have h2 : 2 ^ (bitLen n - 53) ≤ 2 ^ (bitLen n - 1) := Nat.pow_le_pow_right (by norm_num) (by omega)
  have h3 : 2 ^ bitLen n = 2 ^ (bitLen n - 1) * 2 := by
    rw [← pow_succ]
    congr 1
    omega
  omega

/-- Rounding an integer number of units never gives zero for a non-zero input. -/
theorem roundFrac_one_pos (n : Nat) (h : n ≠ 0) : 0 < roundFrac n 1 := by
  have hstep := step_le_self n h
  have hsp : 0 < 2 ^ (bitLen n - 53) := Nat.two_pow_pos _
  have hq : 0 < n / 2 ^ (bitLen n - 53) := Nat.div_pos hstep hsp
  unfold roundFrac
  simp only [Nat.div_one, one_mul]
  split_ifs
  · exact Nat.mul_pos hq hsp
  · exact Nat.mul_pos (Nat.succ_pos _) hsp
  · exact Nat.mul_pos hq hsp
  · exact Nat.mul_pos (Nat.succ_pos _) hsp

/-- A number of units that is a multiple of its own spacing is a double: rounding
keeps it. -/
theorem roundFrac_one_of_dvd (n : Nat) (h : 2 ^ (bitLen n - 53) ∣ n) : roundFrac n 1 = n := by
  have hsp : 0 < 2 ^ (bitLen n - 53) := Nat.two_pow_pos _
  have hmod : n % 2 ^ (bitLen n - 53) = 0 := Nat.mod_eq_zero_of_dvd h
  unfold roundFrac
  simp only [Nat.div_one, one_mul, hmod, Nat.mul_zero]
  rw [if_pos hsp]
  exact Nat.div_mul_cancel h

/-- Whole numbers below `2^53` are doubles. -/
theorem roundFrac_whole (m : Nat) (h : m < 2 ^ 53) :
    roundFrac (m * unitsPerOne) 1 = m * unitsPerOne := by
  apply roundFrac_one_of_dvd
  have hlt : m * unitsPerOne < 2 ^ (53 + 1074) := by
    rw [pow_add]
    exact Nat.mul_lt_mul_of_pos_right h (Nat.two_pow_pos _)
  have hb := bitLen_le_of_lt_two_pow _ _ hlt
  have he : bitLen (m * unitsPerOne) - 53 ≤ 1074 := by omega
  have hd : 2 ^ (bitLen (m * unitsPerOne) - 53) ∣ unitsPerOne := Nat.pow_dvd_pow 2 he
  exact Dvd.dvd.mul_left hd m

/-! ## Signs of sums and differences -/

theorem overflowUnits_pos : 0 < overflowUnits := Nat.two_pow_pos _

theorem lt_ofSignMag_zero (b : Bool) (m : Nat) :
    JSNum.lt (ofSignMag b m) (JSNum.fin 0) = (b && decide (0 < m)) := by
  unfold ofSignMag
  by_cases h : overflowUnits ≤ m
  · have hm : 0 < m := Nat.lt_of_lt_of_le overflowUnits_pos h
    cases b <;> simp [JSNum.lt, h, hm]
  · cases b <;> simp [JSNum.lt, h]

/-- A difference is negative exactly when the first number is below the second. -/
theorem lt_sub_zero (x y : JSNum) : JSNum.lt (JSNum.sub x y) (JSNum.fin 0) = JSNum.lt x y := by
  cases x with
  | fin a =>
    cases y with
    | fin b =>
      show JSNum.lt (ofSignMag (decide (a + -b < 0)) (roundFrac (a + -b).natAbs 1)) (JSNum.fin 0)
        = decide (a < b)
      rw [lt_ofSignMag_zero]
      by_cases hab : a < b
      · have h1 : a + -b < 0 := by omega
        have h2 : (a + -b).natAbs ≠ 0 := by omega
        have h3 := roundFrac_one_pos _ h2
        simp [h1, h3, hab]
      · have h1 : ¬ (a + -b < 0) := by omega
        simp [h1, hab]
    | nan => rfl
    | posInf => rfl
    | negInf => rfl
  | nan => cases y <;> rfl
  | posInf => cases y <;> rfl
  | negInf => cases y <;> rfl

theorem totalOfType_eq_sumAmounts (kind : String) (list : List Transaction) :
    totalOfType kind list = sumAmounts (amountsOfType kind list) := by
  unfold totalOfType sumAmounts amountsOfType
  rw [List.foldl_map]

/-! ## Stored lists that JSON text keeps as they are -/

theorem jsonNum_of_isFinite (x : JSNum) (h : x.isFinite = true) : jsonNum x = x := by
  cases x <;> simp_all [jsonNum, JSNum.isFinite]

theorem map_jsonTx_of_finite (list : List Transaction)
    (h : ∀ t ∈ list, t.amount.isFinite = true) : list.map jsonTx = list := by
  induction list with
  | nil => rfl
  | cons t ts ih =>
    have ht : jsonTx t = t := by
      cases t
      simp only [jsonTx]
      rw [jsonNum_of_isFinite _ (h _ (List.mem_cons_self _ _))]
    rw [List.map_cons, ht, ih (fun u hu => h u (List.mem_cons_of_mem _ hu))]

theorem splice1_of_lt {α : Type} (arr : List α) (i : Nat) (h : i < arr.length) :
    splice1 arr (i : Int) = arr.eraseIdx i := by
  unfold splice1
  have h1 : ¬ ((i : Int) < 0) := by omega
  have h2 : min (i : Int) (arr.length : Int) = i := by omega
  have h3 : min (max (1 : Int) 0) ((arr.length : Int) - i) = 1 := by omega
  simp only [h1, if_false, h2, h3]
  rw [List.eraseIdx_eq_take_drop_succ]
  rfl

/-! ## Sums of whole amounts -/

theorem ofSignMag_whole (m : Nat) (h : m < 2 ^ 53) :
    ofSignMag false (roundFrac (m * unitsPerOne) 1) = JSNum.fin ((m * unitsPerOne : Nat) : Int) := by
  rw [roundFrac_whole m h]
  have hlt : m * unitsPerOne < overflowUnits := by
    have h1 : m * unitsPerOne < 2 ^ 53 * unitsPerOne :=
      Nat.mul_lt_mul_of_pos_right h (Nat.two_pow_pos _)
    have h2 : 2 ^ 53 * unitsPerOne ≤ overflowUnits := by decide!
    omega
  simp [ofSignMag, Nat.not_le.mpr hlt]

/-- Adding two whole numbers whose exact sum is below `2^53` is exact. -/
theorem add_whole (a b : Nat) (h : a + b < 2 ^ 53) :
    JSNum.add (JSNum.fin ((a * unitsPerOne : Nat) : Int)) (JSNum.fin ((b * unitsPerOne : Nat) : Int))
      = JSNum.fin (((a + b) * unitsPerOne : Nat) : Int) := by
  show ofSignMag (decide (((a * unitsPerOne : Nat) : Int) + ((b * unitsPerOne : Nat) : Int) < 0))
      (roundFrac (((a * unitsPerOne : Nat) : Int) + ((b * unitsPerOne : Nat) : Int)).natAbs 1) = _
  have hsum : ((a * unitsPerOne : Nat) : Int) + ((b * unitsPerOne : Nat) : Int)
      = (((a + b) * unitsPerOne : Nat) : Int) := by
    push_cast
    ring
  rw [hsum, Int.natAbs_ofNat]
  have hneg : ¬ ((((a + b) * unitsPerOne : Nat) : Int) < 0) := by omega
  rw [decide_eq_false hneg]
  exact ofSignMag_whole (a + b) h

theorem foldl_add_whole (ns : List Nat) :
    ∀ acc : Nat, acc + ns.sum < 2 ^ 53 →
      (ns.map (fun n => JSNum.fin ((n * unitsPerOne : Nat) : Int))).foldl JSNum.add
          (JSNum.fin ((acc * unitsPerOne : Nat) : Int))
        = JSNum.fin (((acc + ns.sum) * unitsPerOne : Nat) : Int) := by
  induction ns with
  | nil => intro acc _; simp
  | cons n ns ih =>
    intro acc h
    rw [List.sum_cons] at h
    rw [List.map_cons, List.foldl_cons, add_whole acc n (by omega), ih (acc + n) (by omega),
      List.sum_cons, Nat.add_assoc]

theorem exists_whole_list (amounts : List JSNum)
    (h : ∀ x ∈ amounts, ∃ n : Nat, x = JSNum.fin ((n * unitsPerOne : Nat) : Int)) :
    ∃ ns : List Nat, amounts = ns.map (fun n => JSNum.fin ((n * unitsPerOne : Nat) : Int)) := by
  induction amounts with
  | nil => exact ⟨[], rfl⟩
  | cons x xs ih =>
    obtain ⟨n, hn⟩ := h x (List.mem_cons_self _ _)
    obtain ⟨ns, hns⟩ := ih (fun y hy => h y (List.mem_cons_of_mem _ hy))
    exact ⟨n :: ns, by rw [List.map_cons, ← hn, ← hns]⟩

theorem sum_unitsOf_whole (ns : List Nat) :
    ((ns.map (fun n => JSNum.fin ((n * unitsPerOne : Nat) : Int))).map unitsOf).sum
      = ((ns.sum * unitsPerOne : Nat) : Int) := by
  induction ns with
  | nil => simp
  | cons n ns ih =>
    rw [List.map_cons, List.map_cons, List.sum_cons, ih, List.sum_cons]
    simp only [unitsOf]
    push_cast
    ring

/-- The sum of whole amounts whose exact total is below `2^53` is that exact
total. -/
theorem sumAmounts_exact (amounts : List JSNum)
    (hwhole : ∀ x ∈ amounts, ∃ n : Nat, x = JSNum.fin ((n * unitsPerOne : Nat) : Int))
    (hsum : (amounts.map unitsOf).sum < ((2 ^ 53 * unitsPerOne : Nat) : Int)) :
    sumAmounts amounts = JSNum.fin (amounts.map unitsOf).sum := by
  obtain ⟨ns, hns⟩ := exists_whole_list amounts hwhole
  subst hns
  rw [sum_unitsOf_whole] at hsum ⊢
  have hlt : ns.sum < 2 ^ 53 := by
    have h1 : ns.sum * unitsPerOne < 2 ^ 53 * unitsPerOne := by exact_mod_cast hsum
    exact Nat.lt_of_mul_lt_mul_right h1
  have h := foldl_add_whole ns 0 (by omega)
  simp only [Nat.zero_mul, Nat.zero_add] at h
  exact h

/-! ## The progress percentage -/

theorem unitsPerOne_pos : 0 < (unitsPerOne : Int) := by
  have h : 0 < unitsPerOne := Nat.two_pow_pos _
  exact_mod_cast h

theorem ofNat_whole (m : Nat) (h : m < 2 ^ 53) :
    JSNum.ofNat m = JSNum.fin ((m * unitsPerOne : Nat) : Int) := by
  unfold JSNum.ofNat JSNum.ofInt
  have hneg : ¬ ((m : Int) < 0) := by omega
  rw [decide_eq_false hneg, Int.natAbs_ofNat]
  exact ofSignMag_whole m h

theorem ofSignMag_false_cases (m : Nat) :
    ofSignMag false m = JSNum.posInf ∨ ∃ k : Int, 0 ≤ k ∧ ofSignMag false m = JSNum.fin k := by
  unfold ofSignMag
  by_cases h : overflowUnits ≤ m
  · left
    simp [h]
  · right
    exact ⟨(m : Int), by omega, by simp [h]⟩

/-- A quotient of a number that is not negative by a positive number is not
negative. -/
theorem div_nonneg_cases (s t : Int) (hs : 0 ≤ s) (ht : 0 < t) :
    JSNum.div (JSNum.fin s) (JSNum.fin t) = JSNum.posInf ∨
    ∃ k : Int, 0 ≤ k ∧ JSNum.div (JSNum.fin s) (JSNum.fin t) = JSNum.fin k := by
  have h0 : t ≠ 0 := by omega
  have h1 : ¬ (s < 0) := by omega
  have h2 : ¬ (t < 0) := by omega
  have hd : JSNum.div (JSNum.fin s) (JSNum.fin t)
      = ofSignMag false (roundFrac (s.natAbs * unitsPerOne) t.natAbs) := by
    simp [JSNum.div, h0, h1, h2]
  rw [hd]
  exact ofSignMag_false_cases _

theorem mul_nonneg_cases (x : JSNum) (b : Int) (hb : 0 < b)
    (hx : x = JSNum.posInf ∨ ∃ k : Int, 0 ≤ k ∧ x = JSNum.fin k) :
    JSNum.mul x (JSNum.fin b) = JSNum.posInf ∨
    ∃ k : Int, 0 ≤ k ∧ JSNum.mul x (JSNum.fin b) = JSNum.fin k := by
  have h0 : b ≠ 0 := by omega
  have h2 : ¬ (b < 0) := by omega
  rcases hx with hx | ⟨k, hk, hx⟩
  · left
    rw [hx]
    simp [JSNum.mul, JSNum.isNeg, h0, h2]
  · have h1 : ¬ (k < 0) := by omega
    have hm : JSNum.mul x (JSNum.fin b)
        = ofSignMag false (roundFrac (k.natAbs * b.natAbs) unitsPerOne) := by
      rw [hx]
      simp [JSNum.mul, h1, h2]
    rw [hm]
    exact ofSignMag_false_cases _

theorem mathMin_fin_fin (h k : Int) :
    JSNum.mathMin (JSNum.fin h) (JSNum.fin k) = if k < h then JSNum.fin k else JSNum.fin h := by
  simp [JSNum.mathMin, JSNum.lt]

theorem mathMin_fin_posInf (h : Int) : JSNum.mathMin (JSNum.fin h) JSNum.posInf = JSNum.fin h := by
  simp [JSNum.mathMin, JSNum.lt]

theorem mathRound_fin (k : Int) :
    JSNum.mathRound (JSNum.fin k)
      = if 2 ^ 52 * (unitsPerOne : Int) ≤ |k| then JSNum.fin k
        else JSNum.fin ((2 * k + unitsPerOne) / (2 * unitsPerOne) * unitsPerOne) := rfl

theorem mathRound_hundred :
    JSNum.mathRound (JSNum.fin (100 * (unitsPerOne : Int))) = JSNum.fin (100 * (unitsPerOne : Int)) := by
  have hu := unitsPerOne_pos
  have hsmall : ¬ (2 ^ 52 * (unitsPerOne : Int) ≤ |100 * (unitsPerOne : Int)|) := by
    rw [abs_of_nonneg (by positivity)]
    have : (100 : Int) < 2 ^ 52 := by norm_num
    nlinarith
  rw [mathRound_fin, if_neg hsmall]
  have hq : (2 * (100 * (unitsPerOne : Int)) + unitsPerOne) / (2 * unitsPerOne) = 100 := by
    have h1 : 2 * (100 * (unitsPerOne : Int)) + unitsPerOne = 201 * unitsPerOne := by ring
    rw [h1, Int.mul_ediv_mul_of_pos_left _ _ hu]
    norm_num
  rw [hq]

/-- Rounding and capping at 100 commute on numbers that are not negative, and
give a whole number from 0 to 100. -/
theorem round_min_core (k : Int) (hk : 0 ≤ k) :
    JSNum.mathMin (JSNum.fin (100 * (unitsPerOne : Int))) (JSNum.mathRound (JSNum.fin k))
      = JSNum.mathRound (JSNum.mathMin (JSNum.fin (100 * (unitsPerOne : Int))) (JSNum.fin k)) ∧
    ∃ n : Int, 0 ≤ n ∧ n ≤ 100 ∧
      JSNum.mathMin (JSNum.fin (100 * (unitsPerOne : Int))) (JSNum.mathRound (JSNum.fin k))
        = JSNum.fin (n * unitsPerOne) := by
  have hu := unitsPerOne_pos
  have habs : |k| = k := abs_of_nonneg hk
  by_cases hbig : 2 ^ 52 * (unitsPerOne : Int) ≤ |k|
  · have hge : ¬ (k < 100 * (unitsPerOne : Int)) := by
      rw [habs] at hbig
      have : (100 : Int) < 2 ^ 52 := by norm_num
      nlinarith
    rw [mathRound_fin k, if_pos hbig, mathMin_fin_fin, if_neg hge, mathRound_hundred]
    exact ⟨rfl, 100, by norm_num, le_refl _, rfl⟩
  · have hm0 : 0 ≤ (2 * k + unitsPerOne) / (2 * (unitsPerOne : Int)) :=
      Int.ediv_nonneg (by linarith) (by linarith)
    rw [mathRound_fin k, if_neg hbig, mathMin_fin_fin, mathMin_fin_fin]
    by_cases hlt : k < 100 * (unitsPerOne : Int)
    · have hm : (2 * k + unitsPerOne) / (2 * (unitsPerOne : Int)) < 101 :=
        Int.ediv_lt_of_lt_mul (by linarith) (by linarith)
      rw [if_pos hlt, mathRound_fin k, if_neg hbig]
      by_cases hm100 : (2 * k + unitsPerOne) / (2 * (unitsPerOne : Int)) * unitsPerOne
          < 100 * unitsPerOne
      · rw [if_pos hm100]
        exact ⟨rfl, _, hm0, by omega, rfl⟩
      · have heq : (2 * k + unitsPerOne) / (2 * (unitsPerOne : Int)) = 100 := by
          have : ¬ ((2 * k + unitsPerOne) / (2 * (unitsPerOne : Int)) < 100) := by
            intro hc
            exact hm100 (by nlinarith)
          omega
        rw [if_neg hm100, heq]
        exact ⟨rfl, 100, by norm_num, le_refl _, rfl⟩
    · have hm : 100 ≤ (2 * k + unitsPerOne) / (2 * (unitsPerOne : Int)) :=
        Int.le_ediv_of_mul_le (by linarith) (by linarith)
      have hm100 : ¬ ((2 * k + unitsPerOne) / (2 * (unitsPerOne : Int)) * unitsPerOne
          < 100 * unitsPerOne) := by
        intro hc
        nlinarith
      rw [if_neg hlt, if_neg hm100, mathRound_hundred]
      exact ⟨rfl, 100, by norm_num, le_refl _, rfl⟩

theorem hundred_eq : JSNum.ofNat 100 = JSNum.fin (100 * (unitsPerOne : Int)) := by
  rw [ofNat_whole 100 (by norm_num)]
  push_cast
  rfl

theorem fin_whole_eq_ofNat (n : Int) (h0 : 0 ≤ n) (h100 : n ≤ 100) :
    JSNum.fin (n * (unitsPerOne : Int)) = JSNum.ofNat n.toNat := by
  have hlt : n.toNat < 2 ^ 53 := by
    have : n.toNat ≤ 100 := by omega
    have : (100 : Nat) < 2 ^ 53 := by norm_num
    omega
  rw [ofNat_whole n.toNat hlt]
  push_cast
  rw [Int.toNat_of_nonneg h0]

theorem roundFrac_zero (den : Nat) (h : 0 < den) : roundFrac 0 den = 0 := by
  simp [roundFrac, bitLen, bitLenAux_zero, h]

theorem goalPct_zero_saved (name : String) (t : Int) (ht : 0 < t) :
    goalPct ⟨name, JSNum.fin t, JSNum.fin 0⟩ = JSNum.ofNat 0 := by
  have hu := unitsPerOne_pos
  have h0 : t ≠ 0 := by omega
  have h2 : ¬ (t < 0) := by omega
  have htn : 0 < t.natAbs := by omega
  have hzero : ofSignMag false 0 = JSNum.fin 0 := by
    simp [ofSignMag, Nat.not_le.mpr overflowUnits_pos]
  have hd : JSNum.div (JSNum.fin 0) (JSNum.fin t) = JSNum.fin 0 := by
    simp [JSNum.div, h0, h2, roundFrac_zero _ htn, hzero]
  have hupos : 0 < unitsPerOne := Nat.two_pow_pos _
  have hm : JSNum.mul (JSNum.fin 0) (JSNum.fin (100 * (unitsPerOne : Int))) = JSNum.fin 0 := by
    have h3 : ¬ (100 * (unitsPerOne : Int) < 0) := by linarith
    simp [JSNum.mul, h3, roundFrac_zero _ hupos, hzero]
  have hsmall : ¬ (2 ^ 52 * (unitsPerOne : Int) ≤ |(0 : Int)|) := by
    rw [abs_zero]
    have : (0 : Int) < 2 ^ 52 * (unitsPerOne : Int) := by positivity
    omega
  have hr : JSNum.mathRound (JSNum.fin 0) = JSNum.fin 0 := by
    rw [mathRound_fin, if_neg hsmall]
    have hq : (2 * (0 : Int) + unitsPerOne) / (2 * (unitsPerOne : Int)) = 0 :=
      Int.ediv_eq_zero_of_lt (by linarith) (by linarith)
    rw [hq, zero_mul]
  have hlt : (0 : Int) < 100 * (unitsPerOne : Int) := by linarith
  have hz : JSNum.ofNat 0 = JSNum.fin 0 := by
    rw [ofNat_whole 0 (by norm_num)]
    simp
  show JSNum.mathMin (JSNum.ofNat 100)
    (JSNum.mathRound (JSNum.mul (JSNum.div (JSNum.fin 0) (JSNum.fin t)) (JSNum.ofNat 100))) = _
  rw [hundred_eq, hd, hm, hr, mathMin_fin_fin, if_pos hlt, hz]

/-! ## Digits -/

theorem digitChar_toNat (d : Nat) (h : d < 10) : (digitChar d).toNat = 48 + d := by
  interval_cases d <;> rfl

theorem isDigit_digitChar (d : Nat) (h : d < 10) : isDigit (digitChar d) = true := by
  simp [isDigit, digitChar_toNat d h]
  omega

theorem digitVal_digitChar (d : Nat) (h : d < 10) : digitVal (digitChar d) = d := by
  simp [digitVal, digitChar_toNat d h]

theorem decValue_append_single (ds : List Char) (c : Char) :
    decValue (ds ++ [c]) = decValue ds * 10 + digitVal c := by
  simp [decValue, List.foldl_append]

/-- What the digit worker produces, for enough fuel. -/
theorem decDigitsAux_spec (f : Nat) :
    ∀ n acc, n < f → ∃ ds, decDigitsAux f n acc = ds ++ acc ∧ decValue ds = n ∧
      (∀ c ∈ ds, isDigit c = true) ∧ ds ≠ [] ∧ (0 < n → ds.head? ≠ some '0') := by
  induction f with
  | zero => intro n acc h; omega
  | succ f ih =>
    intro n acc h
    by_cases h10 : n < 10
    · refine ⟨[digitChar n], by simp [decDigitsAux, h10], ?_, ?_, by simp, ?_⟩
      · simp [decValue, digitVal_digitChar n h10]
      · intro c hc
        rw [List.mem_singleton.mp hc]
        exact isDigit_digitChar n h10
      · intro hpos
        simp only [List.head?_cons, ne_eq, Option.some.injEq]
        intro hc
        have h1 := digitChar_toNat n h10
        rw [hc] at h1
        have h2 : ('0' : Char).toNat = 48 := rfl
        omega
    · have hlt : n / 10 < f := by omega
      obtain ⟨ds, hds, hval, hdig, hne, hhead⟩ := ih (n / 10) (digitChar (n % 10) :: acc) hlt
      have hmod : n % 10 < 10 := Nat.mod_lt _ (by norm_num)
      refine ⟨ds ++ [digitChar (n % 10)], ?_, ?_, ?_, by simp, ?_⟩
      · simp [decDigitsAux, h10, hds]
      · rw [decValue_append_single, hval, digitVal_digitChar _ hmod]
        omega
      · intro c hc
        rcases List.mem_append.mp hc with hc | hc
        · exact hdig c hc
        · rw [List.mem_singleton.mp hc]
          exact isDigit_digitChar _ hmod
      · intro _
        have hpos : 0 < n / 10 := by omega
        have := hhead hpos
        cases ds with
        | nil => exact absurd rfl hne
        | cons d rest => simpa using this

theorem decDigits_spec (n : Nat) :
    decValue (decDigits n) = n ∧ (∀ c ∈ decDigits n, isDigit c = true) ∧ decDigits n ≠ [] ∧
      (0 < n → (decDigits n).head? ≠ some '0') := by
  obtain ⟨ds, hds, h⟩ := decDigitsAux_spec (n + 1) n [] (Nat.lt_succ_self n)
  have heq : decDigits n = ds := by
    unfold decDigits
    rw [hds, List.append_nil]
  rw [heq]
  exact h

theorem takeWhile_append_stop {p : Char → Bool} (ds : List Char) (c : Char) (r : List Char)
    (hds : ∀ x ∈ ds, p x = true) (hc : p c = false) :
    (ds ++ c :: r).takeWhile p = ds ∧ (ds ++ c :: r).dropWhile p = c :: r := by
  induction ds with
  | nil => simp [List.takeWhile, List.dropWhile, hc]
  | cons d rest ih =>
    have hd : p d = true := hds d (List.mem_cons_self _ _)
    have ih2 := ih (fun x hx => hds x (List.mem_cons_of_mem _ hx))
    simp [List.takeWhile, List.dropWhile, hd, ih2.1, ih2.2]

theorem takeWhile_all {p : Char → Bool} (ds : List Char) (hds : ∀ x ∈ ds, p x = true) :
    ds.takeWhile p = ds ∧ ds.dropWhile p = [] := by
  induction ds with
  | nil => simp
  | cons d rest ih =>
    have hd : p d = true := hds d (List.mem_cons_self _ _)
    have ih2 := ih (fun x hx => hds x (List.mem_cons_of_mem _ hx))
    simp [List.takeWhile, List.dropWhile, hd, ih2.1, ih2.2]

/-! ## Reading a number back -/

/-- A double written as an exact fraction is read as itself. -/
theorem roundFrac_mul_of_dvd (k d : Nat) (hd : 0 < d) (h : k % 2 ^ (bitLen k - 53) = 0) :
    roundFrac (k * d) d = k := by
  have hsp : 0 < 2 ^ (bitLen k - 53) := Nat.two_pow_pos _
  unfold roundFrac
  simp only [Nat.mul_div_cancel _ hd]
  have hrest : k * d % (d * 2 ^ (bitLen k - 53)) = 0 := by
    rw [Nat.mul_comm k d, Nat.mul_mod_mul_left, h, Nat.mul_zero]
  have hq : k * d / (d * 2 ^ (bitLen k - 53)) = k / 2 ^ (bitLen k - 53) := by
    rw [Nat.mul_comm k d, Nat.mul_div_mul_left _ _ hd]
  rw [hrest, hq, Nat.mul_zero, if_pos (Nat.mul_pos hd hsp)]
  exact Nat.div_mul_cancel (Nat.dvd_of_mod_eq_zero h)

theorem parseMagnitude_exactText (k : Nat) (h0 : 0 < k) (h : k % 2 ^ (bitLen k - 53) = 0) :
    parseMagnitude (exactText k) = some k := by
  obtain ⟨hval, hdig, hne, hhead⟩ := decDigits_spec (k * 5 ^ 1074)
  obtain ⟨hval2, hdig2, hne2, _⟩ := decDigits_spec 1074
  have hspos : 0 < k * 5 ^ 1074 := Nat.mul_pos h0 (by positivity)
  have he : isDigit 'e' = false := by decide
  obtain ⟨htake, hdrop⟩ := takeWhile_append_stop (decDigits (k * 5 ^ 1074)) 'e'
    ('-' :: decDigits 1074) hdig he
  have hall : (decDigits 1074).all isDigit = true := List.all_eq_true.mpr hdig2
  have hexp : parseExponent ('e' :: '-' :: decDigits 1074) = some (-(1074 : Int)) := by
    simp [parseExponent, hne2, hall, hval2]
  have hlead : ¬ (decDigits (k * 5 ^ 1074) = [] ∨
      (1 < (decDigits (k * 5 ^ 1074)).length ∧
        (decDigits (k * 5 ^ 1074)).head? = some '0')) := by
    rintro (hc | ⟨_, hc⟩)
    · exact hne hc
    · exact hhead hspos hc
  have hdot : ¬ ('e' = '.') := by decide
  unfold parseMagnitude exactText
  simp only [htake, hdrop, hlead, if_false, hdot, hexp, hval]
  have hunits : decimalUnits (k * 5 ^ 1074) (-(1074 : Int)) = k := by
    have hneg : ¬ ((0 : Int) ≤ -1074) := by norm_num
    have hto : (-(-(1074 : Int))).toNat = 1074 := by rfl
    unfold decimalUnits
    rw [if_neg hneg, hto]
    have hmul : k * 5 ^ 1074 * unitsPerOne = k * 10 ^ 1074 := by
      unfold unitsPerOne
      rw [Nat.mul_assoc, ← Nat.mul_pow]
    rw [hmul]
    exact roundFrac_mul_of_dvd k (10 ^ 1074) (by positivity) h
  rw [hunits]

theorem isNumChar_of_isDigit (c : Char) (h : isDigit c = true) : isNumChar c = true := by
  simp [isNumChar, h]

theorem exactText_numChars (k : Nat) : (exactText k).all isNumChar = true := by
  obtain ⟨_, hdig, _, _⟩ := decDigits_spec (k * 5 ^ 1074)
  obtain ⟨_, hdig2, _, _⟩ := decDigits_spec 1074
  rw [List.all_eq_true]
  intro c hc
  unfold exactText at hc
  rcases List.mem_append.mp hc with hc | hc
  · exact isNumChar_of_isDigit c (hdig c hc)
  · rcases List.mem_cons.mp hc with hc | hc
    · rw [hc]; decide
    · rcases List.mem_cons.mp hc with hc | hc
      · rw [hc]; decide
      · exact isNumChar_of_isDigit c (hdig2 c hc)

theorem shortestAux_reads (f : Nat) :
    ∀ k nd text, shortestAux f k nd = some text → readsAs k text = true := by
  induction f with
  | zero => intro k nd text h; simp [shortestAux] at h
  | succ f ih =>
    intro k nd text h
    simp only [shortestAux] at h
    cases hfind : (candidates k nd).find? (readsAs k) with
    | some t =>
      rw [hfind] at h
      have ht : t = text := by simpa using h
      rw [← ht]
      exact List.find?_some hfind
    | none =>
      rw [hfind] at h
      exact ih k (nd + 1) text h

/-- The text of a positive double reads back as that double. -/
theorem positiveText_reads (k : Nat) (h0 : 0 < k) (h : k % 2 ^ (bitLen k - 53) = 0) :
    parseMagnitude (positiveText k) = some k ∧ (positiveText k).all isNumChar = true := by
  unfold positiveText
  cases hs : shortestAux 17 k 1 with
  | some text =>
    have hr := shortestAux_reads 17 k 1 text hs
    simp only [readsAs, Bool.and_eq_true, decide_eq_true_eq] at hr
    exact hr
  | none => exact ⟨parseMagnitude_exactText k h0 h, exactText_numChars k⟩

theorem parseMagnitude_head (t : List Char) (k : Nat) (h : parseMagnitude t = some k) :
    ∃ c r, t = c :: r ∧ isDigit c = true := by
  cases t with
  | nil => simp [parseMagnitude] at h
  | cons c r =>
    refine ⟨c, r, rfl, ?_⟩
    by_contra hc
    have hc2 : isDigit c = false := by simpa using hc
    simp [parseMagnitude, List.takeWhile, hc2] at h

/-- The JSON text of a finite double is read back as the same number. -/
theorem parseNumberToken_numberToJSON (x : JSNum) (h : isFiniteDouble x = true) :
    parseNumberToken (numberToJSON x) = some x ∧ (numberToJSON x).all isNumChar = true ∧
      numberToJSON x ≠ [] := by
  cases x with
  | fin k =>
    simp only [isFiniteDouble, Bool.and_eq_true, decide_eq_true_eq] at h
    obtain ⟨hdvd, hlt⟩ := h
    by_cases hk0 : k = 0
    · subst hk0
      refine ⟨by decide!, by decide, by decide⟩
    · have hpos : 0 < k.natAbs := by omega
      obtain ⟨hread, hchars⟩ := positiveText_reads k.natAbs hpos hdvd
      obtain ⟨c, r, hcr, hc⟩ := parseMagnitude_head _ _ hread
      have hover : ¬ (overflowUnits ≤ k.natAbs) := by omega
      by_cases hneg : k < 0
      · have htext : numberToJSON (JSNum.fin k) = '-' :: positiveText k.natAbs := by
          simp [numberToJSON, hk0, hneg]
        rw [htext]
        refine ⟨?_, ?_, by simp⟩
        · simp [parseNumberToken, hread, ofSignMag, hover, abs_of_neg hneg]
        · simp only [List.all_cons, hchars, Bool.and_true]
          decide
      · have htext : numberToJSON (JSNum.fin k) = positiveText k.natAbs := by
          simp [numberToJSON, hk0, hneg]
        rw [htext]
        refine ⟨?_, hchars, by rw [hcr]; simp⟩
        have hminus : c ≠ '-' := by
          intro hcm
          rw [hcm] at hc
          exact absurd hc (by decide)
        have hnn : 0 ≤ k := by omega
        have hparse : parseNumberToken (positiveText k.natAbs)
            = (parseMagnitude (positiveText k.natAbs)).map (ofSignMag false) := by
          rw [hcr]
          simp [parseNumberToken, hminus]
        rw [hparse, hread]
        simp [ofSignMag, hover, abs_of_nonneg hnn]
  | nan => simp [isFiniteDouble] at h
  | posInf => simp [isFiniteDouble] at h
  | negInf => simp [isFiniteDouble] at h


/-! ## Reading a string back -/

theorem hexVal_hexChar (n : Nat) (h : n < 32) :
    hexVal (hexChar (n / 16)) = some (n / 16) ∧ hexVal (hexChar (n % 16)) = some (n % 16) := by
  interval_cases n <;> decide

/-- One written character is read back as that character. -/
theorem parseStringBody_quoteChar (f : Nat) (c : Char) (tail : List Char) :
    parseStringBody (f + 1) (quoteChar c ++ tail)
      = (parseStringBody f tail).map (fun p => (c :: p.1, p.2)) := by
  by_cases h1 : c = '"'
  · subst h1
    simp [quoteChar, parseStringBody, unescape]
  by_cases h2 : c = '\\'
  · subst h2
    simp [quoteChar, parseStringBody, unescape]
  by_cases h3 : c.toNat = 8
  · have hc : c = Char.ofNat 8 := by rw [← h3, Char.ofNat_toNat]
    subst hc
    simp [quoteChar, parseStringBody, unescape]
  by_cases h4 : c.toNat = 12
  · have hc : c = Char.ofNat 12 := by rw [← h4, Char.ofNat_toNat]
    subst hc
    simp [quoteChar, parseStringBody, unescape]
  by_cases h5 : c.toNat = 10
  · have hc : c = Char.ofNat 10 := by rw [← h5, Char.ofNat_toNat]
    subst hc
    simp [quoteChar, parseStringBody, unescape]
  by_cases h6 : c.toNat = 13
  · have hc : c = Char.ofNat 13 := by rw [← h6, Char.ofNat_toNat]
    subst hc
    simp [quoteChar, parseStringBody, unescape]
  by_cases h7 : c.toNat = 9
  · have hc : c = Char.ofNat 9 := by rw [← h7, Char.ofNat_toNat]
    subst hc
    simp [quoteChar, parseStringBody, unescape]
  by_cases h8 : c.toNat < 32
  · obtain ⟨hx1, hx2⟩ := hexVal_hexChar c.toNat h8
    have hzero : hexVal '0' = some 0 := by decide
    have hcode : ((0 * 16 + 0) * 16 + c.toNat / 16) * 16 + c.toNat % 16 = c.toNat := by omega
    have hsur : ¬ (0xD800 ≤ c.toNat ∧ c.toNat ≤ 0xDFFF) := by omega
    have hq : quoteChar c
        = ['\\', 'u', '0', '0', hexChar (c.toNat / 16), hexChar (c.toNat % 16)] := by
      simp [quoteChar, h1, h2, h3, h4, h5, h6, h7, h8]
    rw [hq]
    simp only [List.cons_append, List.nil_append, parseStringBody]
    simp
    rw [hzero, hx1, hx2]
    have hcode2 : c.toNat / 16 * 16 + c.toNat % 16 = c.toNat := by omega
    simp only [Nat.zero_mul, Nat.zero_add, hcode2, if_neg hsur, Char.ofNat_toNat]
  · have hq : quoteChar c = [c] := by
      simp [quoteChar, h1, h2, h3, h4, h5, h6, h7, h8]
    rw [hq]
    simp [parseStringBody, h1, h2, h8]

theorem parseStringBody_quoteBody (s : List Char) :
    ∀ f rest, s.length < f →
      parseStringBody f (quoteBody s ++ '"' :: rest) = some (s, rest) := by
  induction s with
  | nil =>
    intro f rest hf
    cases f with
    | zero => omega
    | succ f => simp [quoteBody, parseStringBody]
  | cons c s ih =>
    intro f rest hf
    cases f with
    | zero => omega
    | succ f =>
      have hlen : s.length < f := by simpa using hf
      have hbody : quoteBody (c :: s) ++ '"' :: rest
          = quoteChar c ++ (quoteBody s ++ '"' :: rest) := by
        simp [quoteBody]
      rw [hbody, parseStringBody_quoteChar, ih f rest hlen]
      rfl

theorem quoteChar_ne_nil (c : Char) : 1 ≤ (quoteChar c).length := by
  unfold quoteChar
  split_ifs <;> simp

theorem length_le_quoteBody (s : List Char) : s.length ≤ (quoteBody s).length := by
  induction s with
  | nil => simp [quoteBody]
  | cons c s ih =>
    have h1 := quoteChar_ne_nil c
    have h2 : quoteBody (c :: s) = quoteChar c ++ quoteBody s := by simp [quoteBody]
    rw [h2, List.length_append, List.length_cons]
    omega

/-- A written string, read from after its opening quote, is read back. -/
theorem parseStringBody_quoteTail (s : String) (rest : List Char) :
    parseStringBody ((quoteTail s ++ rest).length + 1) (quoteTail s ++ rest)
      = some (s.toList, rest) := by
  have h : quoteTail s ++ rest = quoteBody s.toList ++ '"' :: rest := by
    simp [quoteTail]
  rw [h]
  apply parseStringBody_quoteBody
  have := length_le_quoteBody s.toList
  rw [List.length_append]
  omega

theorem expect_append (lit rest : List Char) : expect lit (lit ++ rest) = some rest := by
  induction lit with
  | nil => cases rest <;> rfl
  | cons c lit ih => simp [expect, ih]

/-! ## Reading a transaction back -/

theorem parseAmount_numberToJSON (x : JSNum) (rest : List Char) (h : isDouble x = true) :
    parseAmount (numberToJSON x ++ ',' :: rest) = some (jsonNum x, ',' :: rest) := by
  have hnull : ∀ y : JSNum, numberToJSON y = ['n', 'u', 'l', 'l'] →
      parseAmount (numberToJSON y ++ ',' :: rest) = some (JSNum.fin 0, ',' :: rest) := by
    intro y hy
    rw [hy]
    unfold parseAmount
    rw [expect_append]
  cases x with
  | fin k =>
    obtain ⟨hparse, hchars, hne⟩ := parseNumberToken_numberToJSON (JSNum.fin k) h
    have hcomma : isNumChar ',' = false := by decide
    obtain ⟨htake, hdrop⟩ := takeWhile_append_stop (numberToJSON (JSNum.fin k)) ',' rest
      (List.all_eq_true.mp hchars) hcomma
    cases htext : numberToJSON (JSNum.fin k) with
    | nil => exact absurd htext hne
    | cons c r =>
      have hc : isNumChar c = true := by
        have := List.all_eq_true.mp hchars c
        rw [htext] at this
        exact this (List.mem_cons_self _ _)
      have hn : c ≠ 'n' := by
        intro hcn
        rw [hcn] at hc
        exact absurd hc (by decide)
      have hexp : expect ['n', 'u', 'l', 'l'] ((c :: r) ++ ',' :: rest) = none := by
        simp [expect, hn]
      rw [htext] at htake hdrop hparse
      unfold parseAmount
      rw [hexp]
      simp only [htake, hdrop, hparse, Option.map_some']
      rfl
  | nan => exact hnull _ rfl
  | posInf => exact hnull _ rfl
  | negInf => exact hnull _ rfl

theorem keyType_cons : ∃ r, keyType = ',' :: r := ⟨_, rfl⟩

/-- A written transaction is read back, with the amount as JSON keeps it. -/
theorem parseTx_txToJSON (t : Transaction) (rest : List Char) (h : isDouble t.amount = true) :
    parseTx (txToJSON t ++ rest) = some (jsonTx t, rest) := by
  obtain ⟨kt, hkt⟩ := keyType_cons
  have h1 : txToJSON t ++ rest = keyDesc ++ (quoteTail t.desc ++ (keyAmount ++
      (numberToJSON t.amount ++ (keyType ++ (quoteTail t.type ++ (keyDate ++
        (quoteTail t.date ++ ('}' :: rest)))))))) := by
    simp [txToJSON, List.append_assoc]
  have hamount : parseAmount (numberToJSON t.amount ++ (keyType ++ (quoteTail t.type ++
      (keyDate ++ (quoteTail t.date ++ ('}' :: rest))))))
      = some (jsonNum t.amount, keyType ++ (quoteTail t.type ++
        (keyDate ++ (quoteTail t.date ++ ('}' :: rest))))) := by
    rw [hkt]
    exact parseAmount_numberToJSON t.amount _ h
  have hbrace : expect ['}'] ('}' :: rest) = some rest := expect_append ['}'] rest
  unfold parseTx
  rw [h1, expect_append]
  simp only [Option.bind_eq_bind, Option.some_bind]
  rw [parseStringBody_quoteTail]
  simp only [Option.some_bind]
  rw [expect_append]
  simp only [Option.some_bind]
  rw [hamount]
  simp only [Option.some_bind]
  rw [expect_append]
  simp only [Option.some_bind]
  rw [parseStringBody_quoteTail]
  simp only [Option.some_bind]
  rw [expect_append]
  simp only [Option.some_bind]
  rw [parseStringBody_quoteTail]
  simp only [Option.some_bind]
  rw [hbrace]
  rfl

theorem parseItems_joinTx (ts : List Transaction) :
    ∀ (t : Transaction) (f : Nat) (rest : List Char), ts.length < f →
      (∀ u ∈ t :: ts, isDouble u.amount = true) →
      parseItems f (joinTx (t :: ts) ++ ']' :: rest) = some ((t :: ts).map jsonTx, rest) := by
  induction ts with
  | nil =>
    intro t f rest hf hd
    cases f with
    | zero => omega
    | succ f =>
      have ht := parseTx_txToJSON t (']' :: rest) (hd t (List.mem_cons_self _ _))
      simp [parseItems, joinTx, ht]
  | cons u ts ih =>
    intro t f rest hf hd
    cases f with
    | zero => omega
    | succ f =>
      have hlen : ts.length < f := by simpa using hf
      have hjoin : joinTx (t :: u :: ts) ++ ']' :: rest
          = txToJSON t ++ (',' :: (joinTx (u :: ts) ++ ']' :: rest)) := by
        simp [joinTx, List.append_assoc]
      have ht := parseTx_txToJSON t (',' :: (joinTx (u :: ts) ++ ']' :: rest))
        (hd t (List.mem_cons_self _ _))
      have ih2 := ih u f rest hlen (fun v hv => hd v (List.mem_cons_of_mem _ hv))
      have hne : ¬ (',' = ']') := by decide
      rw [hjoin]
      simp [parseItems, ht, hne, ih2]

theorem txToJSON_length (t : Transaction) : 1 ≤ (txToJSON t).length := by
  simp [txToJSON, keyDesc]

theorem length_le_joinTx (ts : List Transaction) : ts.length ≤ (joinTx ts).length := by
  induction ts with
  | nil => simp [joinTx]
  | cons t ts ih =>
    cases ts with
    | nil =>
      have := txToJSON_length t
      simpa [joinTx] using this
    | cons u ts =>
      have h1 := txToJSON_length t
      simp only [joinTx, List.length_append, List.length_cons] at ih ⊢
      omega

/-- What `JSON.parse` reads from the text `JSON.stringify` writes for a list of
transactions: the list, with the amounts as JSON keeps them. -/
theorem parse_stringify (arr : List Transaction)
    (h : ∀ t ∈ arr, isDouble t.amount = true) :
    JSON.parse (JSON.stringify arr) = some (arr.map jsonTx) := by
  cases arr with
  | nil => rfl
  | cons t ts =>
    have hitems := parseItems_joinTx ts t (joinTx (t :: ts) ++ [']']).length [] (by
      have := length_le_joinTx (t :: ts)
      simp only [List.length_append, List.length_cons, List.length_nil] at this ⊢
      omega) h
    have hne : joinTx (t :: ts) ++ [']'] ≠ [']'] := by
      intro hc
      have h1 := congrArg List.length hc
      have h2 := length_le_joinTx (t :: ts)
      simp only [List.length_append, List.length_cons, List.length_nil] at h1 h2
      omega
    have hopen : ('[' : Char) = '[' := rfl
    show (match ('[' :: (joinTx (t :: ts) ++ [']'])) with
      | [] => none
      | x :: rest =>
        if x = '[' then
          (if rest = [']'] then some []
           else
            match parseItems rest.length rest with
            | some (items, []) => some items
            | _ => none)
        else none) = _
    simp only [hopen, if_true, hne, if_false, hitems]

/-! ## Declared income and the dashboard cards -/

/-- C1, as amended: the income shown by updateDashboard is the declared income
whenever that is a non-zero number, positive or negative, and it is the sum
of the amounts of the income entries when the declared income is zero or
not a number. -/
theorem usedIncome_spec (s : Store) :
    (JSNum.lt (JSNum.fin 0) (getIncome s) = true →
      (updateDashboard s).usedIncome = getIncome s) ∧
    (JSNum.lt (getIncome s) (JSNum.fin 0) = true →
      (updateDashboard s).usedIncome = getIncome s) ∧
    (getIncome s = JSNum.fin 0 ∨ getIncome s = JSNum.nan →
      (updateDashboard s).usedIncome
        = sumAmounts (amountsOfType "income" (getTransactions s))) := by
  have hused : (updateDashboard s).usedIncome
      = JSNum.orElse (getIncome s) (totalOfType "income" (getTransactions s)) := rfl
  rw [hused, totalOfType_eq_sumAmounts]
  refine ⟨?_, ?_, ?_⟩
  · intro h
    cases hd : getIncome s with
    | fin k =>
      rw [hd] at h
      have hk : 0 < k := by simpa [JSNum.lt] using h
      have hk0 : k ≠ 0 := by omega
      simp [JSNum.orElse, JSNum.truthy, hk0]
    | nan => rw [hd] at h; simp [JSNum.lt] at h
    | posInf => rfl
    | negInf => rw [hd] at h; simp [JSNum.lt] at h
  · intro h
    cases hd : getIncome s with
    | fin k =>
      rw [hd] at h
      have hk : k < 0 := by simpa [JSNum.lt] using h
      have hk0 : k ≠ 0 := by omega
      simp [JSNum.orElse, JSNum.truthy, hk0]
    | nan => rw [hd] at h; simp [JSNum.lt] at h
    | posInf => rw [hd] at h; simp [JSNum.lt] at h
    | negInf => rfl
  · intro h
    rcases h with h | h <;> rw [h] <;> simp [JSNum.orElse, JSNum.truthy]

/-- The amended C1 on the two examples of the specification: declared income 500
beside an income entry of 1000 shows 500. -/
theorem usedIncome_spec_witness :
    JSNum.lt (JSNum.fin 0) (getIncome overrideStore) = true ∧
    (updateDashboard overrideStore).usedIncome = JSNum.ofNat 500 :=
  ⟨by decide!, ((usedIncome_spec overrideStore).1 (by decide!)).trans (by decide!)⟩

/-- C1 as stated fails for a negative declared income: with `-5` stored and no
transactions the card shows `-5`, not the sum `0` of the income entries. -/
theorem usedIncome_negative_declared :
    JSNum.lt (JSNum.fin 0) (getIncome negativeIncomeStore) = false ∧
    (updateDashboard negativeIncomeStore).usedIncome = JSNum.ofInt (-5) ∧
    sumAmounts (amountsOfType "income" (getTransactions negativeIncomeStore)) = JSNum.fin 0 ∧
    (updateDashboard negativeIncomeStore).usedIncome
      ≠ sumAmounts (amountsOfType "income" (getTransactions negativeIncomeStore)) := by
  decide!

/-- C2: the balance card is the income card minus the expenses card, it is
negative exactly when the expenses exceed the income shown, and income 500
with expenses 200 and 100 gives 200. -/
theorem balance_spec (s : Store) :
    (updateDashboard s).balance
      = JSNum.sub (updateDashboard s).usedIncome (updateDashboard s).totalExpenses ∧
    (JSNum.lt (updateDashboard s).balance (JSNum.fin 0) = true ↔
      JSNum.lt (updateDashboard s).usedIncome (updateDashboard s).totalExpenses = true) ∧
    ((updateDashboard budgetStore).usedIncome = JSNum.ofNat 500 ∧
      (updateDashboard budgetStore).totalExpenses = JSNum.ofNat 300 ∧
      (updateDashboard budgetStore).balance = JSNum.ofNat 200) := by
  refine ⟨rfl, ?_, by decide!⟩
  have hb : (updateDashboard s).balance
      = JSNum.sub (updateDashboard s).usedIncome (updateDashboard s).totalExpenses := rfl
  rw [hb, lt_sub_zero]

theorem amountsOfType_perm (kind : String) (l1 l2 : List Transaction) (h : l1.Perm l2) :
    (amountsOfType kind l1).Perm (amountsOfType kind l2) :=
  (h.filter _).map _

theorem amountsOfType_whole (kind : String) (list : List Transaction)
    (h : ∀ t ∈ list, t.type = kind →
      ∃ n : Nat, t.amount = JSNum.fin ((n * unitsPerOne : Nat) : Int)) :
    ∀ x ∈ amountsOfType kind list, ∃ n : Nat, x = JSNum.fin ((n * unitsPerOne : Nat) : Int) := by
  intro x hx
  unfold amountsOfType at hx
  obtain ⟨t, ht, rfl⟩ := List.mem_map.mp hx
  obtain ⟨hmem, hkind⟩ := List.mem_filter.mp ht
  exact h t hmem (of_decide_eq_true hkind)

/-- C3, as amended: the expenses card is the sum, added from the left in list
order, of the amounts of the expense entries, and entries of other types
contribute nothing; a reordering of the list leaves the card unchanged when
the expense amounts are whole numbers whose exact total is below `2^53`. -/
theorem totalExpenses_spec (s : Store) :
    (updateDashboard s).totalExpenses
      = sumAmounts (amountsOfType "expense" (getTransactions s)) ∧
    ∀ r : Store, (getTransactions s).Perm (getTransactions r) →
      (∀ t ∈ getTransactions s, t.type = "expense" →
        ∃ n : Nat, t.amount = JSNum.fin ((n * unitsPerOne : Nat) : Int)) →
      ((amountsOfType "expense" (getTransactions s)).map unitsOf).sum
        < ((2 ^ 53 * unitsPerOne : Nat) : Int) →
      (updateDashboard r).totalExpenses = (updateDashboard s).totalExpenses := by
  have htotal : ∀ u : Store, (updateDashboard u).totalExpenses
      = sumAmounts (amountsOfType "expense" (getTransactions u)) :=
    fun u => totalOfType_eq_sumAmounts "expense" (getTransactions u)
  refine ⟨htotal s, ?_⟩
  intro r hperm hwhole hsum
  have hp := amountsOfType_perm "expense" _ _ hperm
  have hsums : ((amountsOfType "expense" (getTransactions r)).map unitsOf).sum
      = ((amountsOfType "expense" (getTransactions s)).map unitsOf).sum :=
    ((hp.map unitsOf).sum_eq).symm
  have hwhole_r : ∀ t ∈ getTransactions r, t.type = "expense" →
      ∃ n : Nat, t.amount = JSNum.fin ((n * unitsPerOne : Nat) : Int) :=
    fun t ht => hwhole t (hperm.mem_iff.mpr ht)
  rw [htotal r, htotal s,
    sumAmounts_exact _ (amountsOfType_whole _ _ hwhole_r) (by rw [hsums]; exact hsum),
    sumAmounts_exact _ (amountsOfType_whole _ _ hwhole) hsum, hsums]

/-- The amended C3 on expenses of 200 and 100 and the same two in the other
order. -/
theorem totalExpenses_spec_witness :
    (updateDashboard
        (storeOf [expenseOf (JSNum.ofNat 100), expenseOf (JSNum.ofNat 200)])).totalExpenses
      = (updateDashboard budgetStore).totalExpenses :=
  (totalExpenses_spec budgetStore).2
    (storeOf [expenseOf (JSNum.ofNat 100), expenseOf (JSNum.ofNat 200)])
    (List.Perm.swap _ _ _)
    (by
      intro t ht _
      have hmem : t = expenseOf (JSNum.ofNat 200) ∨ t = expenseOf (JSNum.ofNat 100) := by
        simpa [budgetStore, getTransactions, readJSON] using ht
      rcases hmem with h | h
      · exact ⟨200, by rw [h]; decide!⟩
      · exact ⟨100, by rw [h]; decide!⟩)
    (by decide!)

/-- C3 as stated fails on a reordering: expenses of 0.1, 0.2 and 0.3 add up to
0.6000000000000001 in that order and to 0.6 in the reverse order. -/
theorem totalExpenses_order_counterexample :
    tenthsList.Perm tenthsList.reverse ∧
    (updateDashboard (storeOf tenthsList)).totalExpenses
      = JSNum.fin (1351079888211149 * 2 ^ 1023) ∧
    (updateDashboard (storeOf tenthsList.reverse)).totalExpenses = tenths 6 ∧
    (updateDashboard (storeOf tenthsList.reverse)).totalExpenses
      ≠ (updateDashboard (storeOf tenthsList)).totalExpenses :=
  ⟨(List.reverse_perm _).symm, by decide!, by decide!, by decide!⟩

/-! ## The transaction log -/

/-- C5, as amended: when the amounts of the stored list are finite numbers,
deleting at a valid position leaves the stored list with exactly that entry
removed: one shorter, the entries before it in place, the entries after it
one position down. -/
theorem deleteTransaction_spec (s : Store) (i : Nat)
    (hi : i < (getTransactions s).length)
    (hfin : ∀ t ∈ getTransactions s, t.amount.isFinite = true) :
    getTransactions (deleteTransaction s (i : Int)).store = (getTransactions s).eraseIdx i ∧
    (getTransactions (deleteTransaction s (i : Int)).store).length
      = (getTransactions s).length - 1 ∧
    (∀ j, j < i → (getTransactions (deleteTransaction s (i : Int)).store).get? j
      = (getTransactions s).get? j) ∧
    (∀ j, i ≤ j → (getTransactions (deleteTransaction s (i : Int)).store).get? j
      = (getTransactions s).get? (j + 1)) := by
  have hkeep : ∀ t ∈ (getTransactions s).eraseIdx i, t.amount.isFinite = true :=
    fun t ht => hfin t (List.mem_of_mem_eraseIdx ht)
  have hget : getTransactions (deleteTransaction s (i : Int)).store
      = (getTransactions s).eraseIdx i := by
    show ((splice1 (getTransactions s) (i : Int)).map jsonTx) = _
    rw [splice1_of_lt _ _ hi, map_jsonTx_of_finite _ hkeep]
  rw [hget]
  refine ⟨rfl, ?_, ?_, ?_⟩
  · rw [List.length_eraseIdx, if_pos hi]
  · intro j hj
    simp only [List.get?_eq_getElem?]
    rw [List.getElem?_eraseIdx, if_pos hj]
  · intro j hj
    simp only [List.get?_eq_getElem?]
    rw [List.getElem?_eraseIdx, if_neg (by omega)]

/-- C5 as stated fails on a stored amount that is not finite: the text
`overflowText` is read as a list whose second amount is `Infinity`, and
deleting position 0 writes the entry that is left with `null` for its amount,
so it is not the entry that was stored. -/
theorem deleteTransaction_infinite_counterexample :
    Text.getTransactions ⟨none, some overflowText, none, none⟩
      = some (getTransactions overflowStore) ∧
    getTransactions overflowStore = [expenseOf (JSNum.ofNat 1), expenseOf JSNum.posInf] ∧
    (0 : Nat) < (getTransactions overflowStore).length ∧
    getTransactions (deleteTransaction overflowStore 0).store = [expenseOf (JSNum.fin 0)] ∧
    getTransactions (deleteTransaction overflowStore 0).store
      ≠ (getTransactions overflowStore).eraseIdx 0 ∧
    (getTransactions (deleteTransaction overflowStore 0).store).get? 0
      ≠ (getTransactions overflowStore).get? 1 := by
  decide!

/-- The amended C5 on the example of the specification: deleting position 1 of
three entries keeps the first and the third, in that order. -/
theorem deleteTransaction_spec_witness :
    getTransactions (deleteTransaction threeStore 1).store
      = [expenseOf (JSNum.ofNat 1), expenseOf (JSNum.ofNat 3)] :=
  (deleteTransaction_spec threeStore 1 (by decide) (by decide!)).1

/-- C6: an add with a description that is empty after trimming, or with an
amount that is zero, negative or not a number, leaves the whole store as
it was and alerts the user. -/
theorem addTrans_invalid (s : Store) (descValue : String) (a : JSNum) (ty now : String)
    (h : jsTrim descValue = "" ∨ a = JSNum.fin 0 ∨ JSNum.lt a (JSNum.fin 0) = true ∨
      a = JSNum.nan) :
    (addTransClick s descValue a ty now).store = s ∧
    getTransactions (addTransClick s descValue a ty now).store = getTransactions s ∧
    (addTransClick s descValue a ty now).alerts = ["Enter valid details"] := by
  have hbad : jsTrim descValue = "" ∨ JSNum.truthy a = false ∨
      JSNum.le a (JSNum.fin 0) = true := by
    rcases h with h | h | h | h
    · exact Or.inl h
    · exact Or.inr (Or.inl (by rw [h]; rfl))
    · refine Or.inr (Or.inr ?_)
      cases a with
      | fin k =>
        have hk : k < 0 := by simpa [JSNum.lt] using h
        simp [JSNum.le]
        omega
      | nan => simp [JSNum.lt] at h
      | posInf => simp [JSNum.lt] at h
      | negInf => rfl
    · exact Or.inr (Or.inl (by rw [h]; rfl))
  unfold addTransClick
  simp only [if_pos hbad, and_self]

/-- C6 on a blank description and on a negative amount. -/
theorem addTrans_invalid_witness :
    (addTransClick threeStore "   " (JSNum.ofNat 5) "expense" "t").store = threeStore ∧
    (addTransClick threeStore "tea" (JSNum.ofInt (-5)) "expense" "t").alerts
      = ["Enter valid details"] :=
  ⟨(addTrans_invalid threeStore "   " (JSNum.ofNat 5) "expense" "t" (Or.inl (by decide))).1,
   (addTrans_invalid threeStore "tea" (JSNum.ofInt (-5)) "expense" "t"
      (Or.inr (Or.inr (Or.inl (by decide!))))).2.2⟩

/-- The text written for any list of transactions reads back as the list the
store of values keeps for it. -/
theorem text_agrees_with_store (ls : Text.LocalStorage) (s : Store) (list : List Transaction)
    (h : ∀ t ∈ list, isDouble t.amount = true) :
    Text.getTransactions (Text.saveTransactions ls list)
      = some (getTransactions (saveTransactions s list)) := by
  have hne : JSON.stringify list ≠ "" := by
    intro hc
    have h1 := congrArg String.length hc
    simp [JSON.stringify, String.length] at h1
  show Text.readJSON JSON.parse (some (JSON.stringify list)) [] = some (list.map jsonTx)
  unfold Text.readJSON
  simp only [if_neg hne]
  exact parse_stringify list h

theorem isDouble_of_isFiniteDouble (x : JSNum) (h : isFiniteDouble x = true) :
    isDouble x = true ∧ x.isFinite = true := by
  cases x with
  | fin k => exact ⟨h, rfl⟩
  | nan => simp [isFiniteDouble] at h
  | posInf => simp [isFiniteDouble] at h
  | negInf => simp [isFiniteDouble] at h

/-- C7: for a list of transactions with finite amounts, the empty list included,
getTransactions reads back from the text that saveTransactions stores a list
equal to the one written; the store of values keeps the same list. -/
theorem saveTransactions_roundtrip (ls : Text.LocalStorage) (s : Store)
    (list : List Transaction) (hfin : ∀ t ∈ list, isFiniteDouble t.amount = true) :
    Text.getTransactions (Text.saveTransactions ls list) = some list ∧
    getTransactions (saveTransactions s list) = list := by
  have hkeep : list.map jsonTx = list :=
    map_jsonTx_of_finite list (fun t ht => (isDouble_of_isFiniteDouble _ (hfin t ht)).2)
  have hvalue : getTransactions (saveTransactions s list) = list := hkeep
  refine ⟨?_, hvalue⟩
  rw [text_agrees_with_store ls s list
    (fun t ht => (isDouble_of_isFiniteDouble _ (hfin t ht)).1), hvalue]

/-- C7 on the empty list and on a list of two entries. -/
theorem saveTransactions_roundtrip_witness :
    Text.getTransactions (Text.saveTransactions ⟨none, none, none, none⟩ []) = some [] ∧
    Text.getTransactions (Text.saveTransactions ⟨some "Asha", some "[]", none, some "500"⟩
        [expenseOf (tenths 1), incomeOf (JSNum.ofNat 100)])
      = some [expenseOf (tenths 1), incomeOf (JSNum.ofNat 100)] :=
  ⟨(saveTransactions_roundtrip ⟨none, none, none, none⟩ Store.empty [] (by simp)).1,
   (saveTransactions_roundtrip ⟨some "Asha", some "[]", none, some "500"⟩ Store.empty _
      (by decide!)).1⟩

/-- The text `JSON.stringify` writes for the example of the specification. -/
theorem stringify_example :
    JSON.stringify [⟨"Coffee", JSNum.ofNat 150, "expense", "2024-01-01T00:00:00.000Z"⟩]
      = "[\x7b\"desc\":\"Coffee\",\"amount\":150,\"type\":\"expense\"," ++
        "\"date\":\"2024-01-01T00:00:00.000Z\"\x7d]" := by
  decide!

/-- Finite amounts are needed: an amount of `Infinity` is written as `null` and
is not read back. -/
theorem saveTransactions_infinite_amount :
    JSON.stringify [expenseOf JSNum.posInf]
      = "[\x7b\"desc\":\"item\",\"amount\":null,\"type\":\"expense\"," ++
        "\"date\":\"2024-01-01T00:00:00.000Z\"\x7d]" ∧
    Text.getTransactions (Text.saveTransactions ⟨none, none, none, none⟩
        [expenseOf JSNum.posInf]) ≠ some [expenseOf JSNum.posInf] ∧
    getTransactions (saveTransactions Store.empty [expenseOf JSNum.posInf])
      ≠ [expenseOf JSNum.posInf] := by
  decide!

/-! ## Goals -/

/-- C4 as stated fails when target and saved are both `Infinity`, which satisfy
`target > 0` and `saved >= 0`: the quotient is `NaN` and so is the percentage,
which is no whole number from 0 to 100. -/
theorem goalPct_infinite_counterexample :
    parseNumberToken "1e999".toList = some JSNum.posInf ∧
    JSNum.lt (JSNum.fin 0) infiniteGoal.target = true ∧
    JSNum.le (JSNum.fin 0) infiniteGoal.saved = true ∧
    goalPct infiniteGoal = JSNum.nan ∧
    (goalPct infiniteGoal).isFinite = false ∧
    (List.range 101).all (fun n => decide (goalPct infiniteGoal ≠ JSNum.ofNat n)) = true := by
  decide!

/-- C4, as amended: for a finite positive target and a finite saved amount that
is not negative, the percentage of renderGoals is a whole number from 0 to
100 and equals the percentage as the specification writes it; nothing saved
gives 0, 150 of 100 gives 100 and 50 of 100 gives 50. -/
theorem goalPct_spec (name : String) (saved target : Int) (hs : 0 ≤ saved) (ht : 0 < target) :
    (∃ n : Nat, n ≤ 100 ∧
      goalPct ⟨name, JSNum.fin target, JSNum.fin saved⟩ = JSNum.ofNat n) ∧
    goalPct ⟨name, JSNum.fin target, JSNum.fin saved⟩
      = goalProgressPercent ⟨name, JSNum.fin target, JSNum.fin saved⟩ ∧
    (saved = 0 → goalPct ⟨name, JSNum.fin target, JSNum.fin saved⟩ = JSNum.ofNat 0) ∧
    goalPct ⟨"Laptop", JSNum.ofNat 100, JSNum.ofNat 150⟩ = JSNum.ofNat 100 ∧
    goalPct ⟨"Laptop", JSNum.ofNat 100, JSNum.ofNat 50⟩ = JSNum.ofNat 50 := by
  have hu := unitsPerOne_pos
  have hx := mul_nonneg_cases _ (100 * (unitsPerOne : Int)) (by linarith)
    (div_nonneg_cases saved target hs ht)
  have hmain : (∃ n : Nat, n ≤ 100 ∧
      goalPct ⟨name, JSNum.fin target, JSNum.fin saved⟩ = JSNum.ofNat n) ∧
      goalPct ⟨name, JSNum.fin target, JSNum.fin saved⟩
        = goalProgressPercent ⟨name, JSNum.fin target, JSNum.fin saved⟩ := by
    unfold goalPct goalProgressPercent
    simp only [hundred_eq]
    rcases hx with hx | ⟨k, hk, hx⟩
    · rw [hx]
      have hr : JSNum.mathRound JSNum.posInf = JSNum.posInf := rfl
      rw [hr, mathMin_fin_posInf, mathRound_hundred]
      exact ⟨⟨100, le_refl _, by rw [← hundred_eq]⟩, rfl⟩
    · rw [hx]
      obtain ⟨hcomm, n, hn0, hn100, hn⟩ := round_min_core k hk
      refine ⟨⟨n.toNat, by omega, ?_⟩, hcomm⟩
      rw [hn, fin_whole_eq_ofNat n hn0 hn100]
  refine ⟨hmain.1, hmain.2, ?_, by decide!, by decide!⟩
  intro h0
  rw [h0]
  exact goalPct_zero_saved name target ht

/-- The amended C4 on a goal with 150 saved of a target of 100. -/
theorem goalPct_spec_witness :
    goalPct ⟨"Laptop", JSNum.fin (100 * unitsPerOne), JSNum.fin (150 * unitsPerOne)⟩
      = goalProgressPercent
          ⟨"Laptop", JSNum.fin (100 * unitsPerOne), JSNum.fin (150 * unitsPerOne)⟩ ∧
    goalPct ⟨"Laptop", JSNum.fin (100 * unitsPerOne), JSNum.fin (150 * unitsPerOne)⟩
      = JSNum.ofNat 100 :=
  ⟨(goalPct_spec "Laptop" (150 * unitsPerOne) (100 * unitsPerOne) (by decide!) (by decide!)).2.1,
   by decide!⟩

/-! ## Stored values and their signs -/

/-- C8 fails on the save-income listener: entering `-5` on the empty store
stores a negative declared income, where the three other listeners reject
amounts that are not positive. -/
theorem saveIncome_stores_negative :
    (saveIncomeClick Store.empty (JSNum.ofInt (-5))).store = negativeIncomeStore ∧
    getIncome (saveIncomeClick Store.empty (JSNum.ofInt (-5))).store = JSNum.ofInt (-5) ∧
    JSNum.lt (getIncome (saveIncomeClick Store.empty (JSNum.ofInt (-5))).store) (JSNum.fin 0)
      = true ∧
    (addTransClick Store.empty "tea" (JSNum.ofInt (-5)) "expense" "t").store = Store.empty ∧
    (addGoalClick Store.empty "bike" (JSNum.ofInt (-5))).store = Store.empty := by
  decide!

theorem le_zero_jsonNum (x : JSNum) (h : JSNum.le (JSNum.fin 0) x = true) :
    JSNum.le (JSNum.fin 0) (jsonNum x) = true := by
  cases x with
  | fin k => exact h
  | posInf => rfl
  | nan => rfl
  | negInf => rfl

theorem le_zero_of_accepted (a : JSNum)
    (h : ¬ (JSNum.truthy a = false ∨ JSNum.le a (JSNum.fin 0) = true)) :
    JSNum.le (JSNum.fin 0) a = true := by
  cases a with
  | fin k =>
    have hk : ¬ (k ≤ 0) := by
      intro hc
      exact h (Or.inr (by simpa [JSNum.le] using hc))
    simp only [JSNum.le, decide_eq_true_eq]
    omega
  | posInf => rfl
  | nan => exact absurd (Or.inl rfl) h
  | negInf => exact absurd (Or.inr rfl) h

theorem le_zero_add (x y : JSNum) (hx : JSNum.le (JSNum.fin 0) x = true)
    (hy : JSNum.le (JSNum.fin 0) y = true) : JSNum.le (JSNum.fin 0) (JSNum.add x y) = true := by
  cases x with
  | fin a =>
    cases y with
    | fin b =>
      have ha : 0 ≤ a := by simpa [JSNum.le] using hx
      have hb : 0 ≤ b := by simpa [JSNum.le] using hy
      have hneg : ¬ (a + b < 0) := by omega
      show JSNum.le (JSNum.fin 0) (ofSignMag (decide (a + b < 0)) (roundFrac (a + b).natAbs 1))
        = true
      rw [decide_eq_false hneg]
      rcases ofSignMag_false_cases (roundFrac (a + b).natAbs 1) with h | ⟨k, hk, h⟩
      · rw [h]; rfl
      · rw [h]; simpa [JSNum.le] using hk
    | posInf => rfl
    | nan => exact hy
    | negInf => exact hy
  | posInf =>
    cases y with
    | fin b => rfl
    | posInf => rfl
    | nan => exact hy
    | negInf => exact hy
  | nan => exact absurd hx (by simp [JSNum.le])
  | negInf => exact absurd hx (by simp [JSNum.le])

theorem mem_splice1 {α : Type} (arr : List α) (index : Int) (x : α)
    (h : x ∈ splice1 arr index) : x ∈ arr := by
  unfold splice1 at h
  rcases List.mem_append.mp h with h | h
  · exact List.mem_of_mem_take h
  · exact List.mem_of_mem_drop h

theorem transactions_kept (s : Store) (arr : List Transaction)
    (h : ∀ t ∈ arr, JSNum.le (JSNum.fin 0) t.amount = true) :
    ∀ t ∈ getTransactions (saveTransactions s arr), JSNum.le (JSNum.fin 0) t.amount = true := by
  intro t ht
  have hmem : t ∈ arr.map jsonTx := ht
  obtain ⟨u, hu, rfl⟩ := List.mem_map.mp hmem
  exact le_zero_jsonNum _ (h u hu)

theorem goals_kept (s : Store) (arr : List Goal)
    (h : ∀ g ∈ arr, JSNum.le (JSNum.fin 0) g.target = true ∧
      JSNum.le (JSNum.fin 0) g.saved = true) :
    ∀ g ∈ getGoals (saveGoals s arr), JSNum.le (JSNum.fin 0) g.target = true ∧
      JSNum.le (JSNum.fin 0) g.saved = true := by
  intro g hg
  have hmem : g ∈ arr.map jsonGoal := hg
  obtain ⟨u, hu, rfl⟩ := List.mem_map.mp hmem
  exact ⟨le_zero_jsonNum _ (h u hu).1, le_zero_jsonNum _ (h u hu).2⟩

/-- Every action keeps the amounts of the two stored lists at `>= 0`. -/
theorem perform_keeps (s : Store) (act : Action) (h : ListsNotNegative s) :
    ListsNotNegative (perform s act) := by
  obtain ⟨htx, hgoal⟩ := h
  cases act with
  | saveIncome entered => exact ⟨htx, hgoal⟩
  | addTrans descValue a ty now =>
    show ListsNotNegative (addTransClick s descValue a ty now).store
    unfold addTransClick
    by_cases hbad : jsTrim descValue = "" ∨ JSNum.truthy a = false ∨
        JSNum.le a (JSNum.fin 0) = true
    · simp only [if_pos hbad]
      exact ⟨htx, hgoal⟩
    · simp only [if_neg hbad]
      refine ⟨transactions_kept s _ ?_, hgoal⟩
      intro t ht
      rcases List.mem_append.mp ht with ht | ht
      · exact htx t ht
      · rw [List.mem_singleton.mp ht]
        exact le_zero_of_accepted a (fun hc => hbad (Or.inr hc))
  | deleteTrans index =>
    exact ⟨transactions_kept s _ (fun t ht => htx t (mem_splice1 _ _ _ ht)), hgoal⟩
  | addGoal nameValue t =>
    show ListsNotNegative (addGoalClick s nameValue t).store
    unfold addGoalClick
    by_cases hbad : jsTrim nameValue = "" ∨ JSNum.truthy t = false ∨
        JSNum.le t (JSNum.fin 0) = true
    · simp only [if_pos hbad]
      exact ⟨htx, hgoal⟩
    · simp only [if_neg hbad]
      refine ⟨htx, goals_kept s _ ?_⟩
      intro g hg
      rcases List.mem_append.mp hg with hg | hg
      · exact hgoal g hg
      · rw [List.mem_singleton.mp hg]
        exact ⟨le_zero_of_accepted t (fun hc => hbad (Or.inr hc)), rfl⟩
  | addToGoal i amt =>
    show ListsNotNegative (addToGoal s i amt).store
    unfold addToGoal
    by_cases hbad : JSNum.truthy amt = false ∨ JSNum.le amt (JSNum.fin 0) = true
    · simp only [if_pos hbad]
      exact ⟨htx, hgoal⟩
    · simp only [if_neg hbad]
      cases hget : (getGoals s).get? i with
      | none => exact ⟨htx, hgoal⟩
      | some g =>
        have hgmem : g ∈ getGoals s := List.get?_mem hget
        refine ⟨htx, goals_kept s _ ?_⟩
        intro u hu
        rcases List.mem_or_eq_of_mem_set hu with hu | hu
        · exact hgoal u hu
        · rw [hu]
          exact ⟨(hgoal g hgmem).1,
            le_zero_add _ _ (hgoal g hgmem).2 (le_zero_of_accepted amt hbad)⟩
  | removeGoal i confirmed =>
    show ListsNotNegative (removeGoal s i confirmed).store
    unfold removeGoal
    cases confirmed with
    | false => exact ⟨htx, hgoal⟩
    | true =>
      exact ⟨htx, goals_kept s _ (fun g hg => hgoal g (mem_splice1 _ _ _ hg))⟩

/-- In every state reached from the empty store the transaction amounts, the goal
targets and the saved amounts are `>= 0`: of the stored monetary values only the
declared income can be negative. -/
theorem reachable_lists_not_negative (actions : List Action) :
    ListsNotNegative (runActions Store.empty actions) := by
  have hgen : ∀ s : Store, ListsNotNegative s → ListsNotNegative (runActions s actions) := by
    induction actions with
    | nil => exact fun s h => h
    | cons act rest ih => exact fun s h => ih (perform s act) (perform_keeps s act h)
  refine hgen Store.empty ⟨?_, ?_⟩
  · intro t ht
    exact absurd ht (List.not_mem_nil t)
  · intro g hg
    exact absurd hg (List.not_mem_nil g)

/-! ## Identity -/

/-- C9: logout clears the identity slot and leaves the three other slots as
they were, and the guard then sends every page but the login page to
login.html. -/
theorem logout_spec (s : Store) (page : Option String) (hp : page ≠ some "login") :
    getUsername (logout s).store = "" ∧
    (logout s).store.username = none ∧
    (logout s).store.transactions = s.transactions ∧
    (logout s).store.goals = s.goals ∧
    (logout s).store.income = s.income ∧
    requireLogin (logout s).store page = some "login.html" := by
  refine ⟨rfl, rfl, rfl, rfl, rfl, ?_⟩
  unfold requireLogin
  have hname : getUsername (logout s).store = "" := rfl
  simp [hname, hp]

/-- C9 on a logged-in store and the dashboard page. -/
theorem logout_spec_witness :
    getUsername (logout threeStore).store = "" ∧
    requireLogin (logout threeStore).store (some "dashboard") = some "login.html" :=
  ⟨(logout_spec threeStore (some "dashboard") (by decide)).1,
   (logout_spec threeStore (some "dashboard") (by decide)).2.2.2.2.2⟩

/-- C10 fails: with a name stored, setupLogin on the login page performs no
navigation at all; its guard only ever navigates to login.html. -/
theorem setupLogin_stays (s : Store) (hasForm : Bool) (h : getUsername s ≠ "") :
    (setupLogin s (some "login") hasForm).nav = none ∧
    ∀ page, (setupLogin s page hasForm).nav ≠ some "dashboard.html" := by
  have hreq : ∀ page, requireLogin s page = none := by
    intro page
    unfold requireLogin
    simp [h]
  refine ⟨hreq _, ?_⟩
  intro page
  show requireLogin s page ≠ some "dashboard.html"
  rw [hreq]
  simp

/-- C10 on a store where Asha is logged in. -/
theorem setupLogin_stays_witness :
    (setupLogin threeStore (some "login") true).nav = none :=
  (setupLogin_stays threeStore true (by decide)).1

end Sbp
